import Mathlib

/-!
Verification development for the configuration-normalization and path/URL
sanitation layer of a MinIO storage-provider adapter.

JavaScript strings are modelled as lists of characters (`JStr`); JavaScript
numbers, where they matter (ports, expiries), as rationals; thrown exceptions
as `Except` values with a constructor per error class (error message payloads
are dropped, only the error class is tracked).  Host-language builtins used by
the source (`String.prototype.trim`, `decodeURIComponent`, the WHATWG `URL`
parser, `Number(...)`) are modelled explicitly below; each such model is
marked as a host-builtin model in its doc comment.
-/

/-- A JavaScript string, modelled as a list of characters. -/
abbrev JStr := List Char

/-- Convenience conversion for writing `JStr` literals. -/
def js (s : String) : JStr := s.toList

/-- Error classes thrown by the embedded code (message payloads dropped). -/
inductive JsError where
  | pathTraversalError
  | configurationError
  | signedUrlError
  | uriError
  | genericError
deriving DecidableEq, Repr

set_option maxRecDepth 4096

deriving instance DecidableEq for Except

/-- Host-builtin model: the set of characters removed at the ends of a string
by `String.prototype.trim` (JavaScript WhiteSpace and LineTerminator). -/
def isJsWhitespace (c : Char) : Bool :=
  c = ' ' || c = '\t' || c = '\n' || c = '\r' ||
  c.val = 11 || c.val = 12 || c.val = 160 || c.val = 0xFEFF ||
  c.val = 0x1680 || (0x2000 ≤ c.val && c.val ≤ 0x200A) ||
  c.val = 0x2028 || c.val = 0x2029 || c.val = 0x202F ||
  c.val = 0x205F || c.val = 0x3000

/-- Host-builtin model: `String.prototype.trim`. -/
def jsTrim (s : JStr) : JStr :=
  ((s.dropWhile isJsWhitespace).reverse.dropWhile isJsWhitespace).reverse

/-- The character class `[\x00-\x1F\x7F]` (C0 controls and DEL; the separate
`/\0/g` replacement in the source is subsumed by this class). -/
def isControlChar (c : Char) : Bool := c.val ≤ 0x1F || c.val = 0x7F

/-- `sanitized.replace(/\0/g, "").replace(/[\x00-\x1F\x7F]/g, "")`. -/
def stripControls (s : JStr) : JStr := s.filter (fun c => !isControlChar c)

/-- The path-separator character class `[\/\\]`. -/
def isSepChar (c : Char) : Bool := c = '/' || c = '\\'

/-- `a.startsWith(b)` as a prefix test on character lists. -/
def jsStartsWith (pre s : JStr) : Bool := pre.isPrefixOf s

/-- `s.includes(pat)`: substring occurrence test. -/
def isSubstr (pat : JStr) : JStr → Bool
  | [] => pat.isPrefixOf []
  | c :: cs => pat.isPrefixOf (c :: cs) || isSubstr pat cs

/-- `sanitized.replace(/[\\\/]+/g, "/")`: every maximal run of slashes and
backslashes becomes a single `/`. -/
def collapseSlashes : JStr → JStr
  | [] => []
  | [c] => if isSepChar c then ['/'] else [c]
  | a :: b :: cs =>
    if isSepChar a && isSepChar b then collapseSlashes (b :: cs)
    else (if isSepChar a then '/' else a) :: collapseSlashes (b :: cs)

/-- Split at every single occurrence of a character satisfying `p`, keeping
empty pieces (the semantics of `String.prototype.split` with a one-character
separator class and no `+`). -/
def splitP (p : Char → Bool) : JStr → List JStr
  | [] => [[]]
  | c :: cs =>
    match splitP p cs with
    | [] => [[]]
    | h :: t => if p c then [] :: h :: t else (c :: h) :: t

/-- Drops empty pieces except a trailing one (helper for run-based splits). -/
def dropEmptyButLast : List JStr → List JStr
  | [] => []
  | [x] => [x]
  | x :: y :: t =>
    if x = [] then dropEmptyButLast (y :: t) else x :: dropEmptyButLast (y :: t)

/-- `path.split(/[\/\\]+/)`: split at maximal runs of slashes/backslashes.
A run produces a single boundary, so interior empty pieces (which a
single-character split would produce between adjacent separators) disappear,
while a leading or trailing separator still yields an empty first or last
piece, matching the JavaScript regex-split semantics. -/
def jsSplitSepRuns (s : JStr) : List JStr :=
  match splitP isSepChar s with
  | [] => []
  | h :: t => h :: dropEmptyButLast t

/-- `Array.prototype.join(sep)` on a list of strings. -/
def joinSep (sep : JStr) : List JStr → JStr
  | [] => []
  | [x] => x
  | x :: y :: t => x ++ sep ++ joinSep sep (y :: t)

/-- `sanitizePathSegment` from `src/utils/path-builder.ts`. -/
def sanitizePathSegment (segment : JStr) : Except JsError JStr :=
  if segment = [] then .ok []
  else
    let sanitized := stripControls (jsTrim segment)
    if isSubstr ['.', '.'] sanitized || sanitized.contains '~' ||
        jsStartsWith ['/'] sanitized || jsStartsWith ['\\'] sanitized then
      .error .pathTraversalError
    else
      .ok (collapseSlashes sanitized)

/-- `segments.map(sanitizePathSegment)` where the mapped function can throw:
left-to-right, stopping at the first exception. -/
def mapMExcept (f : JStr → Except JsError JStr) : List JStr → Except JsError (List JStr)
  | [] => .ok []
  | x :: xs => do
    let y ← f x
    let ys ← mapMExcept f xs
    pure (y :: ys)

/-- `normalizePath` from `src/utils/path-builder.ts`. -/
def normalizePath (path : JStr) : Except JsError JStr :=
  if path = [] then .ok []
  else do
    let sanitizedSegs ← mapMExcept sanitizePathSegment (jsSplitSepRuns path)
    pure (joinSep ['/']
      (sanitizedSegs.filter (fun seg => decide (0 < seg.length))))

/-- The fields of a Strapi file object used by the path builder.  A `none`
models an absent (or non-string) field. -/
structure StrapiFile where
  name : Option JStr := none
  hash : Option JStr := none
  ext : Option JStr := none
  path : Option JStr := none

/-- The per-input sanitation block that `buildUploadPath` performs twice, once
for `folder` and once for `file.path` (the source inlines the same statements
for each): skip when falsy, reject absolute paths by their trimmed form,
normalize, and contribute a path segment when the result is nonempty. -/
def buildPathSegment (seg : JStr) : Except JsError (List JStr) :=
  if seg ≠ [] then do
    if jsStartsWith ['/'] (jsTrim seg) || jsStartsWith ['\\'] (jsTrim seg) then
      throw JsError.pathTraversalError
    let sanitized ← normalizePath seg
    pure (if 0 < sanitized.length then [sanitized] else [])
  else pure []

/-- The extension sanitation of `buildUploadPath`: `file.ext.startsWith(".")`
decides whether the leading dot is stripped before sanitizing. -/
def sanitizeExt (ext : JStr) : Except JsError JStr :=
  match ext with
  | c :: restExt =>
    if c = '.' then sanitizePathSegment restExt else sanitizePathSegment (c :: restExt)
  | [] => sanitizePathSegment []

/-- The `!file.hash || typeof file.hash !== "string"` style requirement: a
missing or empty (falsy) field raises `PathTraversalError`. -/
def requireString (v : Option JStr) : Except JsError JStr :=
  match v with
  | some s => if s = [] then throw JsError.pathTraversalError else pure s
  | none => throw JsError.pathTraversalError

/-- `buildUploadPath` from `src/utils/path-builder.ts`. -/
def buildUploadPath (file : StrapiFile) (folder : JStr) : Except JsError JStr := do
  let folderSegs ← buildPathSegment folder
  let pathSegs ←
    match file.path with
    | some p => buildPathSegment p
    | none => pure []
  let hash ← requireString file.hash
  let ext ← requireString file.ext
  let sanitizedHash ← sanitizePathSegment hash
  let sanitizedExt ← sanitizeExt ext
  if sanitizedExt = [] then throw JsError.pathTraversalError
  else pure (joinSep ['/']
    (folderSegs ++ pathSegs ++ [sanitizedHash ++ '.' :: sanitizedExt]))

/-- Hexadecimal digit value, any case. -/
def hexVal (c : Char) : Option Nat :=
  if '0' ≤ c ∧ c ≤ '9' then some (c.toNat - 48)
  else if 'a' ≤ c ∧ c ≤ 'f' then some (c.toNat - 87)
  else if 'A' ≤ c ∧ c ≤ 'F' then some (c.toNat - 55)
  else none

/-- UTF-8 continuation byte range. -/
def isContByte (n : Nat) : Bool := 0x80 ≤ n && n ≤ 0xBF

/-- One percent-escape sequence of `decodeURIComponent`, non-recursively:
given the two hex digits after a leading `%` and the remaining input, decodes
one character (consuming further `%XX` continuation sequences for multi-byte
UTF-8 lead bytes) and returns it with the unconsumed remainder; a `%` not
followed by two hex digits, a lead byte outside the UTF-8 ranges, or a
missing/invalid continuation byte raises `URIError` (overlong/surrogate
checks of the real builtin are not modelled; the development only exercises
ASCII sequences and malformed ones). -/
def pctDecodeOne (a b : Char) (rest : JStr) : Except JsError (Char × JStr) :=
  match hexVal a, hexVal b with
  | some x, some y =>
    let n := 16 * x + y
    if n < 0x80 then .ok (Char.ofNat n, rest)
    else if 0xC2 ≤ n && n ≤ 0xDF then
      match rest with
      | '%' :: a2 :: b2 :: rest2 =>
        match hexVal a2, hexVal b2 with
        | some x2, some y2 =>
          let n2 := 16 * x2 + y2
          if isContByte n2 then
            .ok (Char.ofNat ((n - 0xC0) * 64 + (n2 - 0x80)), rest2)
          else .error .uriError
        | _, _ => .error .uriError
      | _ => .error .uriError
    else if 0xE0 ≤ n && n ≤ 0xEF then
      match rest with
      | '%' :: a2 :: b2 :: '%' :: a3 :: b3 :: rest3 =>
        match hexVal a2, hexVal b2, hexVal a3, hexVal b3 with
        | some x2, some y2, some x3, some y3 =>
          let n2 := 16 * x2 + y2
          let n3 := 16 * x3 + y3
          if isContByte n2 && isContByte n3 then
            .ok (Char.ofNat ((n - 0xE0) * 4096 + (n2 - 0x80) * 64 + (n3 - 0x80)), rest3)
          else .error .uriError
        | _, _, _, _ => .error .uriError
      | _ => .error .uriError
    else if 0xF0 ≤ n && n ≤ 0xF4 then
      match rest with
      | '%' :: a2 :: b2 :: '%' :: a3 :: b3 :: '%' :: a4 :: b4 :: rest4 =>
        match hexVal a2, hexVal b2, hexVal a3, hexVal b3, hexVal a4, hexVal b4 with
        | some x2, some y2, some x3, some y3, some x4, some y4 =>
          let n2 := 16 * x2 + y2
          let n3 := 16 * x3 + y3
          let n4 := 16 * x4 + y4
          if isContByte n2 && isContByte n3 && isContByte n4 then
            .ok (Char.ofNat ((n - 0xF0) * 262144 + (n2 - 0x80) * 4096 +
              (n3 - 0x80) * 64 + (n4 - 0x80)), rest4)
          else .error .uriError
        | _, _, _, _, _, _ => .error .uriError
      | _ => .error .uriError
    else .error .uriError
  | _, _ => .error .uriError

/-- The recursion of `decodeURIComponent`, fuelled: each step consumes at
least one input character and one unit of fuel, so fuel equal to the input
length is always sufficient and the fuel-exhausted arm is unreachable. -/
def decodeAux : Nat → JStr → Except JsError JStr
  | _, [] => .ok []
  | 0, _ :: _ => .error .uriError
  | fuel + 1, c :: cs =>
    if c = '%' then
      match cs with
      | a :: b :: rest =>
        match pctDecodeOne a b rest with
        | .error e => .error e
        | .ok (ch, rem) => do
          let tail ← decodeAux fuel rem
          pure (ch :: tail)
      | _ => .error .uriError
    else do
      let tail ← decodeAux fuel cs
      pure (c :: tail)

/-- Host-builtin model: `decodeURIComponent`.  `%XX` sequences are decoded
byte-wise, multi-byte UTF-8 lead bytes consume the matching number of
continuation `%XX` sequences; malformed sequences raise `URIError`. -/
def jsDecodeURIComponent (s : JStr) : Except JsError JStr :=
  decodeAux s.length s

/-- Host-builtin model: the WHATWG URL path percent-encode set (ASCII part):
C0 controls, space, double quote, angle brackets, backtick, curly braces, and
DEL or above. -/
def inPathEncodeSet (c : Char) : Bool :=
  c.val ≤ 0x1F || c = ' ' || c = '"' || c = '<' || c = '>' ||
  c.val = 0x60 || c.val = 123 || c.val = 125 || 0x7F ≤ c.val

/-- Uppercase hexadecimal digit. -/
def hexDigitUpper (n : Nat) : Char :=
  if n < 10 then Char.ofNat (48 + n) else Char.ofNat (55 + n)

/-- Percent-encodes a single character (ASCII model; characters above U+00FF
are outside the modelled scope and kept verbatim). -/
def pctEncodeChar (c : Char) : JStr :=
  if c.val < 256 then ['%', hexDigitUpper (c.toNat / 16), hexDigitUpper (c.toNat % 16)]
  else [c]

/-- Applies the path percent-encode set to one character. -/
def encodePathChar (c : Char) : JStr :=
  if inPathEncodeSet c then pctEncodeChar c else [c]

/-- Applies the path percent-encode set to a path segment. -/
def encodeSeg (s : JStr) : JStr := (s.map encodePathChar).flatten

/-- WHATWG dot-segment handling: `..` pops the previous segment, `.` is
dropped, and a trailing `.` or `..` leaves a trailing empty segment (a
trailing slash in the serialized path). -/
def dotProcess : List JStr → List JStr → List JStr
  | acc, [] => acc
  | acc, [s] =>
    if s = ['.', '.'] then acc.dropLast ++ [[]]
    else if s = ['.'] then acc ++ [[]]
    else acc ++ [s]
  | acc, s :: t =>
    if s = ['.', '.'] then dotProcess acc.dropLast t
    else if s = ['.'] then dotProcess acc t
    else dotProcess (acc ++ [s]) t

/-- The parts of a parsed URL object that the source consults. -/
structure JsUrl where
  hostname : JStr
  pathname : JStr
deriving DecidableEq, Repr

/-- The substring after the last `@` (drops URL userinfo). -/
def afterLastAt (s : JStr) : JStr := (splitP (fun c => c = '@') s).getLastD s

/-- Host-builtin model: `new URL(...)` for absolute `http`/`https` URLs,
returning the `hostname` and `pathname` properties, or `none` where the
builtin throws.  The authority ends at the first `/`, `\`, `?` or `#`;
userinfo is dropped at the last `@`; the hostname ends at the port `:`.
The path is split at `/` and `\`, dot segments are resolved, and each
segment is percent-encoded with the path encode set.  Not modelled: schemes
other than http/https, hostname canonicalization (case, punycode), port
validation, and `%2e` dot-segment spellings. -/
def jsParseUrl (u : JStr) : Option JsUrl :=
  let parse := fun (rest : JStr) =>
    let auth := rest.takeWhile (fun c => !(c = '/' || c = '\\' || c = '?' || c = '#'))
    if auth = [] then none
    else
      let hostname := (afterLastAt auth).takeWhile (fun c => c ≠ ':')
      if hostname = [] then none
      else
        let afterAuth := rest.drop auth.length
        let rawPath := afterAuth.takeWhile (fun c => !(c = '?' || c = '#'))
        let pathname :=
          match rawPath with
          | [] => ['/']
          | _ :: pathRest =>
            '/' :: joinSep ['/']
              ((dotProcess [] (splitP isSepChar pathRest)).map encodeSeg)
        some ⟨hostname, pathname⟩
  if jsStartsWith (js "http://") u then parse (u.drop 7)
  else if jsStartsWith (js "https://") u then parse (u.drop 8)
  else none

/-- `s.indexOf(pat)` as an optional index. -/
def jsIndexOf (pat : JStr) : JStr → Option Nat
  | [] => if pat.isPrefixOf ([] : JStr) then some 0 else none
  | c :: cs =>
    if pat.isPrefixOf (c :: cs) then some 0
    else (jsIndexOf pat cs).map (· + 1)

/-- `s.substring(0, s.indexOf(ch))` when `ch` occurs, `s` otherwise. -/
def stripAfterChar (ch : Char) (s : JStr) : JStr := s.takeWhile (fun c => c ≠ ch)

/-- `s.replace(pat, "")` for a nonempty plain-string `pat`: removes the first
occurrence, if any. -/
def replaceFirst (pat : JStr) : JStr → JStr
  | [] => []
  | c :: cs =>
    if pat.isPrefixOf (c :: cs) then (c :: cs).drop pat.length
    else c :: replaceFirst pat cs

/-- The `try` block of `extractFilePathFromUrl` (its final `throw` surfaces
as an error that the surrounding `catch` receives). -/
def extractTryBlock (decodedUrl hostUrl bucket : JStr) : Except JsError JStr :=
  match jsParseUrl decodedUrl with
  | none => .error .genericError
  | some urlObj =>
    let pathname := urlObj.pathname
    if jsStartsWith ('/' :: bucket ++ ['/']) pathname then
      .ok (pathname.drop (bucket.length + 2))
    else if pathname = '/' :: bucket then .ok []
    else
      let bucketPrefix := hostUrl ++ bucket ++ ['/']
      if jsStartsWith bucketPrefix decodedUrl then
        .ok (decodedUrl.drop bucketPrefix.length)
      else
        let viaSegments :=
          if jsStartsWith ['/'] pathname then
            let segments := splitP (fun c => c = '/') (pathname.drop 1)
            if segments.headD [] = bucket ∧ 1 < segments.length then
              some (joinSep ['/'] (segments.drop 1))
            else none
          else none
        match viaSegments with
        | some r => .ok r
        | none =>
          let filePath := replaceFirst bucketPrefix decodedUrl
          if filePath ≠ decodedUrl then .ok filePath
          else .error .genericError

/-- `extractFilePathFromUrl` from `src/utils/path-builder.ts`: percent-decode,
strip query and fragment, then the `try` block; the `catch` retries the
host-prefix match and a bare `/bucket/` substring search before rethrowing. -/
def extractFilePathFromUrl (url hostUrl bucket : JStr) : Except JsError JStr :=
  if url = [] then .error .genericError
  else
    match jsDecodeURIComponent url with
    | .error e => .error e
    | .ok d0 =>
      let decodedUrl := stripAfterChar '#' (stripAfterChar '?' d0)
      match extractTryBlock decodedUrl hostUrl bucket with
      | .ok r => .ok r
      | .error e =>
        let bucketPrefix := hostUrl ++ bucket ++ ['/']
        if jsStartsWith bucketPrefix decodedUrl then
          .ok (decodedUrl.drop bucketPrefix.length)
        else
          match jsIndexOf ('/' :: bucket ++ ['/']) decodedUrl with
          | some i => .ok (decodedUrl.drop (i + bucket.length + 2))
          | none => .error e

/-- `createFileUrl` from `src/utils/url-builder.ts`. -/
def createFileUrl (uploadPath hostUrl bucket : JStr) : JStr :=
  hostUrl ++ bucket ++ '/' :: uploadPath

/-- `pathnameContainsBucket` from `src/utils/url-builder.ts`. -/
def pathnameContainsBucket (fileUrl : Option JStr) (bucket : JStr) : Bool :=
  match fileUrl with
  | none => false
  | some u =>
    if u = [] then false
    else
      match jsParseUrl u with
      | none => false
      | some urlObj =>
        jsStartsWith ('/' :: bucket ++ ['/']) urlObj.pathname ||
          urlObj.pathname = '/' :: bucket

/-- `isFileFromSameBucket` from `src/utils/url-builder.ts` (the current,
lenient version: bucket-in-pathname is the primary check and hostname
mismatches are tolerated for valid-looking domains). -/
def isFileFromSameBucket (fileUrl : Option JStr) (endPoint bucket : JStr) : Bool :=
  match fileUrl with
  | none => false
  | some u =>
    if u = [] then false
    else
      match jsParseUrl u with
      | none => false
      | some urlObj =>
        let isFromBucket := jsStartsWith ('/' :: bucket ++ ['/']) urlObj.pathname ||
          urlObj.pathname = '/' :: bucket
        if !isFromBucket then false
        else
          let isSameHost := urlObj.hostname = endPoint ||
            isSubstr endPoint urlObj.hostname || isSubstr urlObj.hostname endPoint
          if isSameHost then true
          else urlObj.hostname.contains '.' || urlObj.hostname = js "localhost"

/-- `pathname.replace(/^\//, "")`: drops one leading slash. -/
def dropOneLeadingSlash : JStr → JStr
  | '/' :: t => t
  | s => s

/-- The pathname-based extraction fallback inside `getSignedUrl`'s `try`
block (`src/provider/minio-provider.ts`): parse the raw file URL and strip
the bucket from the pathname; `none` when this also fails (its errors are
swallowed by the inner `catch`, which returns the original URL). -/
def signExtractFallback (url bucket : JStr) : Option JStr :=
  match jsParseUrl url with
  | none => none
  | some urlObj =>
    let pathname := urlObj.pathname
    if jsStartsWith ('/' :: bucket ++ ['/']) pathname then
      some (pathname.drop (bucket.length + 2))
    else if jsStartsWith ('/' :: bucket) pathname then
      some (dropOneLeadingSlash (pathname.drop (bucket.length + 1)))
    else none

/-- The object-key recovery step of `getSignedUrl`: `extractFilePathFromUrl`
first, then the pathname fallback; `none` means both failed, in which case
`getSignedUrl` returns the original URL. -/
def signExtractPath (url hostUrl bucket : JStr) : Option JStr :=
  match extractFilePathFromUrl url hostUrl bucket with
  | .ok fp => some fp
  | .error _ => signExtractFallback url bucket

/-- `Number.isInteger` on the rational model of JavaScript numbers. -/
def isIntegerQ (q : ℚ) : Bool := q.den = 1

/-- `options?.expiresIn || this.config.expiry`: the requested expiry when
truthy (a falsy `0` falls back to the configured default). -/
def chosenExpiry (expiresIn : Option ℚ) (cfgExpiry : ℚ) : ℚ :=
  match expiresIn with
  | some q => if q = 0 then cfgExpiry else q
  | none => cfgExpiry

/-- The presigned-URL markers `getSignedUrl` looks for. -/
def isAlreadySignedUrl (url : JStr) : Bool :=
  isSubstr (js "X-Amz-Algorithm") url || isSubstr (js "signature=") url

/-- The configuration fields `MinioProvider.getSignedUrl` consults. -/
structure SignConfig where
  endPoint : JStr
  bucket : JStr
  expiry : ℚ

/-- `MinioProvider.getSignedUrl` from `src/provider/minio-provider.ts`.
The external client's `presignedGetObject` is an oracle parameter taking the
object key and expiry; logging and timing are not observable.  The `catch`
block's final rethrow is always a `SignedUrlError`. -/
def getSignedUrl (cfg : SignConfig) (hostUrl : JStr) (fileUrl : Option JStr)
    (expiresIn : Option ℚ) (presign : JStr → ℚ → Except JsError JStr) :
    Except JsError JStr :=
  match fileUrl with
  | none => .error .signedUrlError
  | some url =>
    if url = [] then .error .signedUrlError
    else
      let isAlreadySigned := isAlreadySignedUrl url
      let isFromSameBucket := isFileFromSameBucket (some url) cfg.endPoint cfg.bucket
      let pathnameHasBucket := pathnameContainsBucket (some url) cfg.bucket
      if !isFromSameBucket && !pathnameHasBucket then .ok url
      else if isAlreadySigned && expiresIn.isNone then .ok url
      else
        match signExtractPath url hostUrl cfg.bucket with
        | none => .ok url
        | some filePath =>
          let expiry : ℚ := chosenExpiry expiresIn cfg.expiry
          let attempt : Except JsError JStr :=
            if expiry ≤ 0 ∨ ¬isIntegerQ expiry then .error .signedUrlError
            else presign filePath expiry
          match attempt with
          | .ok signed => .ok signed
          | .error _ =>
            if pathnameHasBucket && !isFromSameBucket then .ok url
            else .error .signedUrlError

/-- A JavaScript value that may be a number or a string spelling of one. -/
inductive NumOrStr where
  | num (q : ℚ)
  | str (s : JStr)
deriving DecidableEq, Repr

/-- A JavaScript value that may be a boolean or a string. -/
inductive BoolOrStr where
  | bool (b : Bool)
  | str (s : JStr)
deriving DecidableEq, Repr

/-- Digits to a natural number (most significant first). -/
def natOfDigits (s : JStr) : Nat :=
  s.foldl (fun acc c => acc * 10 + (c.toNat - 48)) 0

/-- Exponent part of a decimal number literal: optional sign then digits. -/
def parseExponent (r : JStr) : Option Int :=
  let signAndRest : Int × JStr :=
    match r with
    | '-' :: rr => (-1, rr)
    | '+' :: rr => (1, rr)
    | rr => (1, rr)
  if signAndRest.2 ≠ [] ∧ signAndRest.2.all Char.isDigit then
    some (signAndRest.1 * natOfDigits signAndRest.2)
  else none

/-- Host-builtin model: `Number(trimmedString)` for nonempty trimmed input,
covering optional sign, decimal digits with optional fraction and exponent.
`none` models `NaN`.  Not modelled (treated as `NaN`): `Infinity` and the
hex/octal/binary literal forms. -/
def jsStringToNumber (t : JStr) : Option ℚ :=
  let signAndRest : ℚ × JStr :=
    match t with
    | '-' :: r => (-1, r)
    | '+' :: r => (1, r)
    | r => (1, r)
  let t1 := signAndRest.2
  let intPart := t1.takeWhile Char.isDigit
  let rest1 := t1.drop intPart.length
  let fracAndRest : JStr × JStr :=
    match rest1 with
    | '.' :: r => (r.takeWhile Char.isDigit, r.dropWhile Char.isDigit)
    | r => ([], r)
  let fracPart := fracAndRest.1
  if intPart = [] ∧ fracPart = [] then none
  else
    let mantissa : ℚ :=
      (natOfDigits intPart : ℚ) + (natOfDigits fracPart : ℚ) / ((10 : ℚ) ^ fracPart.length)
    match fracAndRest.2 with
    | [] => some (signAndRest.1 * mantissa)
    | 'e' :: r =>
      match parseExponent r with
      | some e => some (signAndRest.1 * mantissa * (10 : ℚ) ^ e)
      | none => none
    | 'E' :: r =>
      match parseExponent r with
      | some e => some (signAndRest.1 * mantissa * (10 : ℚ) ^ e)
      | none => none
    | _ => none

/-- `parseNumber` from `src/utils/config-validator.ts`; `none` both for an
absent value and for a `NaN` result. -/
def parseNumber : Option NumOrStr → Option ℚ
  | none => none
  | some (.num q) => some q
  | some (.str s) =>
    let trimmed := jsTrim s
    if trimmed = [] then none else jsStringToNumber trimmed

/-- Host-builtin model: `String.prototype.toLowerCase` (ASCII part). -/
def jsToLower (s : JStr) : JStr := s.map Char.toLower

/-- `parseBoolean` from `src/utils/config-validator.ts`. -/
def parseBoolean : Option BoolOrStr → Bool
  | none => false
  | some (.bool b) => b
  | some (.str s) => jsToLower s = js "true"

/-- ASCII alphanumeric. -/
def isAlnum (c : Char) : Bool :=
  c.isDigit || ('a' ≤ c && c ≤ 'z') || ('A' ≤ c && c ≤ 'Z')

/-- Lowercase-or-digit, the class `[a-z0-9]`. -/
def isLowerAlnum (c : Char) : Bool := c.isDigit || ('a' ≤ c && c ≤ 'z')

/-- The class `[a-zA-Z0-9-]`. -/
def isLabelChar (c : Char) : Bool := isAlnum c || c = '-'

/-- The class `[a-z0-9.-]`. -/
def isBucketChar (c : Char) : Bool := isLowerAlnum c || c = '.' || c = '-'

/-- One octet alternative of the IPv4 regex
`(25[0-5]|2[0-4][0-9]|[01]?[0-9][0-9]?)`, as a full match on one
dot-separated piece, organized by piece length: one or two digits match the
third alternative; a three-character piece matches `25[0-5]`, `2[0-4][0-9]`
or `[01][0-9][0-9]`. -/
def ipv4OctetMatch (s : JStr) : Bool :=
  match s with
  | [c1] => c1.isDigit
  | [c1, c2] => c1.isDigit && c2.isDigit
  | [c0, c1, c2] =>
    (c0 = '2' && c1 = '5' && ('0' ≤ c2 && c2 ≤ '5')) ||
    (c0 = '2' && ('0' ≤ c1 && c1 ≤ '4') && c2.isDigit) ||
    ((c0 = '0' || c0 = '1') && c1.isDigit && c2.isDigit)
  | _ => false

/-- `isValidIPv4` from `src/utils/config-validator.ts`: the anchored regex
`(octet\.){3}octet`; octets contain no dot, so the regex is equivalent to
splitting at every `.` into exactly four matching octets. -/
def isValidIPv4 (ip : JStr) : Bool :=
  match splitP (fun c => c = '.') ip with
  | [o1, o2, o3, o4] =>
    ipv4OctetMatch o1 && ipv4OctetMatch o2 && ipv4OctetMatch o3 && ipv4OctetMatch o4
  | _ => false

/-- `ip.split("::")` — leftmost, non-overlapping. -/
def splitOnColonColon : JStr → List JStr
  | [] => [[]]
  | [c] => [[c]]
  | a :: b :: cs =>
    if a = ':' ∧ b = ':' then [] :: splitOnColonColon cs
    else
      match splitOnColonColon (b :: cs) with
      | [] => [[a]]
      | h :: t => (a :: h) :: t

/-- The regex `^[0-9a-fA-F]\x7b1,4\x7d$`: one to four hex digits. -/
def isHexGroup (g : JStr) : Bool :=
  decide (g ≠ []) && decide (g.length ≤ 4) && g.all (fun c => (hexVal c).isSome)

/-- `isValidIPv6` from `src/utils/config-validator.ts` (current version):
at most one `::`; with no `::` exactly eight hex groups; with one `::` the
nonempty colon-separated chunks on both sides must be hex groups and number
at most seven (empty chunks are filtered out before counting). -/
def isValidIPv6 (ip : JStr) : Bool :=
  let parts := splitOnColonColon ip
  if 1 < parts.length - 1 then false
  else
    match parts with
    | [p] =>
      let groups := splitP (fun c => c = ':') p
      if groups.length ≠ 8 then false
      else groups.all isHexGroup
    | [p0, p1] =>
      let bef := if p0 = [] then []
        else (splitP (fun c => c = ':') p0).filter (fun g => decide (0 < g.length))
      let aft := if p1 = [] then []
        else (splitP (fun c => c = ':') p1).filter (fun g => decide (0 < g.length))
      if 7 < bef.length + aft.length then false
      else bef.all isHexGroup && aft.all isHexGroup
    | _ => false

/-- One label of the hostname regex:
`[a-zA-Z0-9]([a-zA-Z0-9-]\x7b0,61\x7d[a-zA-Z0-9])?` as a full match. -/
def labelMatch : JStr → Bool
  | [] => false
  | [c] => isAlnum c
  | c :: rest =>
    isAlnum c &&
      (match rest.getLast? with
       | some lastc =>
         isAlnum lastc && rest.dropLast.all isLabelChar &&
           decide (rest.dropLast.length ≤ 61)
       | none => false)

/-- The hostname regex `(label\.)*label` as a full match: labels contain no
dot, so it is equivalent to every dot-separated piece matching `label`. -/
def hostnameRegexMatch (hostname : JStr) : Bool :=
  (splitP (fun c => c = '.') hostname).all labelMatch

/-- `isValidHostname` from `src/utils/config-validator.ts`. -/
def isValidHostname (hostname : JStr) : Bool :=
  if hostname = js "localhost" then true
  else if isValidIPv4 hostname || isValidIPv6 hostname then true
  else if 253 < hostname.length then false
  else hostnameRegexMatch hostname

/-- `isValidBucketName` from `src/utils/config-validator.ts`. -/
def isValidBucketName (bucket : JStr) : Bool :=
  if bucket.length < 3 || 63 < bucket.length then false
  else if !(match bucket.head? with | some c => isLowerAlnum c | none => false) ||
      !(match bucket.getLast? with | some c => isLowerAlnum c | none => false) then
    false
  else if isValidIPv4 bucket then false
  else if isSubstr ['.', '.'] bucket then false
  else bucket.all isBucketChar

/-- The raw provider options bag (`ProviderOptions` from `src/index.types.ts`),
restricted to the fields `validateAndNormalizeConfig` reads.  `none` models an
absent field; `privateFlag` stands for the source field `private`, which is a
reserved word here. -/
structure ProviderOptions where
  endPoint : Option JStr := none
  host : Option JStr := none
  port : Option NumOrStr := none
  useSSL : Option BoolOrStr := none
  accessKey : Option JStr := none
  secretKey : Option JStr := none
  bucket : Option JStr := none
  folder : Option JStr := none
  privateFlag : Option BoolOrStr := none
  expiry : Option NumOrStr := none
  connectTimeout : Option NumOrStr := none
  requestTimeout : Option NumOrStr := none
  debug : Option BoolOrStr := none
  rejectUnauthorized : Option BoolOrStr := none
  maxRetries : Option NumOrStr := none
  retryDelay : Option NumOrStr := none
  keepAlive : Option BoolOrStr := none

/-- `NormalizedConfig` from `src/utils/config-validator.ts` (`privateFlag`
stands for the source field `private`). -/
structure NormalizedConfig where
  endPoint : JStr
  port : ℚ
  useSSL : Bool
  accessKey : JStr
  secretKey : JStr
  bucket : JStr
  folder : JStr
  privateFlag : Bool
  expiry : ℚ
  connectTimeout : ℚ
  requestTimeout : Option ℚ
  debug : Bool
  rejectUnauthorized : Bool
  maxRetries : ℚ
  retryDelay : ℚ
  keepAlive : Bool
deriving DecidableEq, Repr

def DEFAULT_PORT_HTTP : ℚ := 9000

def DEFAULT_PORT_HTTPS : ℚ := 443

/-- `7 * 24 * 60 * 60` seconds, written as a literal (kernel-reducible). -/
def DEFAULT_EXPIRY : ℚ := 604800

def DEFAULT_CONNECT_TIMEOUT : ℚ := 60000

def DEFAULT_MAX_RETRIES : ℚ := 3

def DEFAULT_RETRY_DELAY : ℚ := 1000

def MIN_PORT : ℚ := 1

def MAX_PORT : ℚ := 65535

/-- The port-resolution block of `validateAndNormalizeConfig` before the
SSL auto-correction: absent, unparsable, non-integer or out-of-range ports
fall back to the SSL-dependent default (with a logged warning). -/
def resolvePort (portOpt : Option NumOrStr) (useSSL : Bool) : ℚ :=
  let defaultPort := if useSSL then DEFAULT_PORT_HTTPS else DEFAULT_PORT_HTTP
  let port0 : ℚ :=
    match portOpt with
    | none => defaultPort
    | some v =>
      match parseNumber (some v) with
      | none => defaultPort
      | some parsedPort => parsedPort
  if port0 < MIN_PORT ∨ MAX_PORT < port0 ∨ ¬isIntegerQ port0 then defaultPort
  else port0

/-- The expiry-resolution block of `validateAndNormalizeConfig`: absent,
unparsable or non-positive-integer values fall back to the default. -/
def resolveExpiry (expiryOpt : Option NumOrStr) : ℚ :=
  let expiry0 : ℚ :=
    match expiryOpt with
    | none => DEFAULT_EXPIRY
    | some v =>
      match parseNumber (some v) with
      | none => DEFAULT_EXPIRY
      | some q => q
  if expiry0 ≤ 0 ∨ ¬isIntegerQ expiry0 then DEFAULT_EXPIRY else expiry0

/-- `validateAndNormalizeConfig` from `src/utils/config-validator.ts`
(current version: `host` alias, warn-and-default policy for optional numeric
fields, SSL/port auto-correction; logger warnings are not observable). -/
def validateAndNormalizeConfig (options : ProviderOptions) :
    Except JsError NormalizedConfig := do
  let endPointOpt :=
    match options.endPoint with
    | some e => if e = [] then options.host else some e
    | none => options.host
  let endPointValue ←
    match endPointOpt with
    | some e => if e = [] then throw JsError.configurationError else pure e
    | none => throw JsError.configurationError
  let accessKey ←
    match options.accessKey with
    | some k => if k = [] then throw JsError.configurationError else pure k
    | none => throw JsError.configurationError
  let secretKey ←
    match options.secretKey with
    | some k => if k = [] then throw JsError.configurationError else pure k
    | none => throw JsError.configurationError
  let bucket ←
    match options.bucket with
    | some b => if b = [] then throw JsError.configurationError else pure b
    | none => throw JsError.configurationError
  let useSSL := parseBoolean options.useSSL
  let port1 := resolvePort options.port useSSL
  let port : ℚ :=
    if useSSL ∧ port1 = DEFAULT_PORT_HTTP then DEFAULT_PORT_HTTPS else port1
  let expiry := resolveExpiry options.expiry
  let isPrivate := parseBoolean options.privateFlag
  let debug := parseBoolean options.debug
  let rejectUnauthorized :=
    match options.rejectUnauthorized with
    | none => true
    | some v => parseBoolean (some v)
  if isPrivate ∧ (accessKey = [] ∨ secretKey = []) then
    throw JsError.configurationError
  let trimmedEndPoint := jsTrim endPointValue
  let trimmedAccessKey := jsTrim accessKey
  let trimmedSecretKey := jsTrim secretKey
  let trimmedBucket := jsTrim bucket
  let trimmedFolder := jsTrim (match options.folder with | some f => f | none => [])
  if trimmedEndPoint = [] then throw JsError.configurationError
  if !isValidHostname trimmedEndPoint then throw JsError.configurationError
  if trimmedAccessKey = [] then throw JsError.configurationError
  if trimmedSecretKey = [] then throw JsError.configurationError
  if trimmedBucket = [] then throw JsError.configurationError
  if !isValidBucketName trimmedBucket then throw JsError.configurationError
  let connectTimeout : ℚ :=
    match options.connectTimeout with
    | none => DEFAULT_CONNECT_TIMEOUT
    | some v =>
      match parseNumber (some v) with
      | some q => if 0 < q then q else DEFAULT_CONNECT_TIMEOUT
      | none => DEFAULT_CONNECT_TIMEOUT
  let requestTimeout : Option ℚ :=
    match options.requestTimeout with
    | none => none
    | some v =>
      match parseNumber (some v) with
      | some q => if 0 < q then some q else none
      | none => none
  let maxRetries : ℚ :=
    match options.maxRetries with
    | none => DEFAULT_MAX_RETRIES
    | some v =>
      match parseNumber (some v) with
      | some q => if 0 ≤ q then q else DEFAULT_MAX_RETRIES
      | none => DEFAULT_MAX_RETRIES
  let retryDelay : ℚ :=
    match options.retryDelay with
    | none => DEFAULT_RETRY_DELAY
    | some v =>
      match parseNumber (some v) with
      | some q => if 0 ≤ q then q else DEFAULT_RETRY_DELAY
      | none => DEFAULT_RETRY_DELAY
  let keepAlive :=
    match options.keepAlive with
    | none => false
    | some v => parseBoolean (some v)
  pure
    { endPoint := trimmedEndPoint
      port := port
      useSSL := useSSL
      accessKey := trimmedAccessKey
      secretKey := trimmedSecretKey
      bucket := trimmedBucket
      folder := trimmedFolder
      privateFlag := isPrivate
      expiry := expiry
      connectTimeout := connectTimeout
      requestTimeout := requestTimeout
      debug := debug
      rejectUnauthorized := rejectUnauthorized
      maxRetries := maxRetries
      retryDelay := retryDelay
      keepAlive := keepAlive }

example : buildUploadPath ⟨none, some (js "abc123"), some (js ".jpg"), none⟩ (js "uploads") =
    .ok (js "uploads/abc123.jpg") := by decide

example : buildUploadPath ⟨none, some (js "../evil"), some (js ".jpg"), none⟩ (js "uploads") =
    .error .pathTraversalError := by decide

example : buildUploadPath ⟨none, some (js "abc123"), some (js ".jpg"), some (js "2024\\01")⟩
    (js "uploads") = .ok (js "uploads/2024/01/abc123.jpg") := by decide

example : buildUploadPath ⟨none, some (js "a."), some (js ".jpg"), none⟩ [] =
    .ok (js "a..jpg") := by decide

example : buildUploadPath ⟨none, some (js " "), some (js ".jpg"), none⟩ (js "uploads") =
    .ok (js "uploads/.jpg") := by decide

example : extractFilePathFromUrl (js "http://localhost:9000/test-bucket/uploads/abc123.jpg")
    (js "http://localhost:9000/") (js "test-bucket") = .ok (js "uploads/abc123.jpg") := by decide

example : extractFilePathFromUrl
    (js "http://localhost:9000/test-bucket/uploads/abc123.jpg?X-Amz-Algorithm=AWS4-HMAC-SHA256&X-Amz-Signature=test123")
    (js "http://localhost:9000/") (js "test-bucket") = .ok (js "uploads/abc123.jpg") := by decide

example : extractFilePathFromUrl
    (js "http://localhost:9000/test-bucket/memory/file.jpg%3FX-Amz-Algorithm%3DAWS4-HMAC-SHA256")
    (js "http://localhost:9000/") (js "test-bucket") = .ok (js "memory/file.jpg") := by decide

example : extractFilePathFromUrl
    (js "http://localhost:9000/test-bucket/uploads/file.jpg#section")
    (js "http://localhost:9000/") (js "test-bucket") = .ok (js "uploads/file.jpg") := by decide

example : jsParseUrl (js "http://h/bkt/a b.jpg") =
    some ⟨js "h", js "/bkt/a%20b.jpg"⟩ := by decide

example : jsParseUrl (js "http://h:9000/bkt/./x.jpg") =
    some ⟨js "h", js "/bkt/x.jpg"⟩ := by decide

example : extractFilePathFromUrl (js "http://h/bkt/file%")
    (js "http://h/") (js "bkt") = .error .uriError := by decide

example : isFileFromSameBucket (some (js "https://legacy.example.com/bkt/file.jpg"))
    (js "minio.internal") (js "bkt") = true := by decide

example : pathnameContainsBucket (some (js "https://legacy.example.com/bkt/file.jpg"))
    (js "bkt") = true := by decide

example : (validateAndNormalizeConfig
    { endPoint := some (js "localhost"), accessKey := some (js "k"),
      secretKey := some (js "s"), bucket := some (js "bkt") }).map
    (fun c => (c.port, c.useSSL, c.expiry)) = .ok (9000, false, 604800) := by decide

example : isValidHostname (js "1:::2") = true := by decide

example : isValidHostname (js ":::") = true := by decide

example : isValidIPv6 (js "2001:db8::8a2e:370:7334") = true := by decide

example : isValidIPv6 (js "1:2:3:4:5:6:7:8") = true := by decide

example : isValidHostname (js "example..com") = false := by decide

example : isValidBucketName (js "my-bucket.test") = true := by decide

example : isValidBucketName (js "ab") = false := by decide

example : isValidBucketName (js "192.168.1.1") = false := by decide

example : isValidBucketName (js "a..b") = false := by decide

example : getSignedUrl ⟨js "minio.internal", js "bkt", 604800⟩
    (js "https://minio.internal/")
    (some (js "https://legacy.example.com/bkt/file.jpg")) none
    (fun _ _ => .error .genericError) = .error .signedUrlError := by decide

example : getSignedUrl ⟨js "minio.internal", js "bkt", 604800⟩
    (js "https://minio.internal/")
    (some (js "https://minio.internal/bkt/file.jpg")) (some 0)
    (fun _ q => if q = 604800 then .ok (js "DEFAULT") else .ok (js "CUSTOM")) =
    .ok (js "DEFAULT") := by decide

example : getSignedUrl ⟨js "minio.internal", js "bkt", 604800⟩
    (js "https://minio.internal/")
    (some (js "https://someweirdhost/bkt/file.jpg")) none
    (fun _ _ => .error .genericError) =
    .ok (js "https://someweirdhost/bkt/file.jpg") := by decide

/-- Modelled from the spec: the bucket-name regular expression
`^[a-z0-9][a-z0-9.-]` followed by 1 to 61 characters of the class and a final
`[a-z0-9]` — first and last characters lowercase alphanumeric, 1–61 class
characters between them. -/
def specBucketRegex (b : JStr) : Bool :=
  match b with
  | [] => false
  | c :: rest =>
    match rest.getLast? with
    | none => false
    | some lastc =>
      isLowerAlnum c && isLowerAlnum lastc &&
        rest.dropLast.all isBucketChar &&
        decide (1 ≤ rest.dropLast.length) && decide (rest.dropLast.length ≤ 61)

/-- Modelled from the spec: one octet of a dotted-quad IPv4 literal — one to
three decimal digits with value at most 255. -/
def specIPv4Octet (s : JStr) : Bool :=
  decide (s ≠ []) && decide (s.length ≤ 3) && s.all Char.isDigit &&
    decide (natOfDigits s ≤ 255)

/-- Modelled from the spec: a syntactically valid IPv4 address, four
dot-separated octets. -/
def specIPv4 (s : JStr) : Bool :=
  match splitP (fun c => c = '.') s with
  | [o1, o2, o3, o4] =>
    specIPv4Octet o1 && specIPv4Octet o2 && specIPv4Octet o3 && specIPv4Octet o4
  | _ => false

/-- Modelled from the claim: one side of a `::` compression — empty exactly
when the marker touches that end of the address, otherwise colon-separated
1–4-hex-digit groups with no stray empty chunks; returns the group count. -/
def specIPv6Side (p : JStr) : Option Nat :=
  if p = [] then some 0
  else
    let gs := splitP (fun c => c = ':') p
    if gs.all isHexGroup then some gs.length else none

/-- Modelled from the claim: a syntactically valid IPv6 address — at most one
`::` compression marker; without one, exactly eight 1–4-hex-digit groups;
with one, well-formed sides whose explicit groups number at most seven (the
marker stands for at least one omitted group out of eight). -/
def specIPv6 (s : JStr) : Bool :=
  match splitOnColonColon s with
  | [p] =>
    let gs := splitP (fun c => c = ':') p
    decide (gs.length = 8) && gs.all isHexGroup
  | [p0, p1] =>
    match specIPv6Side p0, specIPv6Side p1 with
    | some n0, some n1 => decide (n0 + n1 ≤ 7)
    | _, _ => false
  | _ => false

/-- Modelled from the spec: one DNS hostname label — 1 to 63 characters,
starting and ending alphanumeric, letters/digits/hyphens inside. -/
def specLabel (l : JStr) : Bool :=
  decide (1 ≤ l.length) && decide (l.length ≤ 63) &&
    (match l.head?, l.getLast? with
     | some a, some b => isAlnum a && isAlnum b
     | _, _ => false) &&
    l.all isLabelChar

/-- Modelled from the spec: a syntactically valid DNS hostname — dot-separated
labels, total length at most 253. -/
def specDNSHostname (s : JStr) : Bool :=
  decide (s.length ≤ 253) && (splitP (fun c => c = '.') s).all specLabel

/-- Characters that survive a URL round-trip verbatim: ASCII alphanumerics,
hyphen, underscore, dot and the path separator. -/
def urlSafeChar (c : Char) : Bool :=
  (48 ≤ c.toNat && c.toNat ≤ 57) || (97 ≤ c.toNat && c.toNat ≤ 122) ||
    (65 ≤ c.toNat && c.toNat ≤ 90) || c = '-' || c = '_' || c = '.' || c = '/'

example : specIPv4 (js "192.168.1.1") = true := by decide

example : specIPv4 (js "256.1.1.1") = false := by decide

example : isValidIPv4 (js "039.1.1.1") = true ∧ specIPv4 (js "039.1.1.1") = true := by decide

example : specIPv6 (js "2001:db8::8a2e:370:7334") = true := by decide

example : specIPv6 (js "1:::2") = false := by decide

example : specIPv6 (js ":::") = false := by decide

example : specIPv6 (js "::") = true := by decide

example : specIPv6 (js "1:2:3:4:5:6:7:8") = true := by decide

example : specDNSHostname (js "example.com") = true := by decide

example : specDNSHostname (js "a..b") = false := by decide

example : specBucketRegex (js "abc") = true ∧ specBucketRegex (js "ab") = false := by decide

/-! ### List lemmas about the string primitives -/

lemma isSubstr_infix_iff (pat s : JStr) : isSubstr pat s = true ↔ pat <:+: s := by
  induction s with
  | nil => simp [isSubstr, List.isPrefixOf_iff_prefix]
  | cons c cs ih =>
    simp [isSubstr, List.isPrefixOf_iff_prefix, ih, List.infix_cons_iff]

lemma singleton_infix_iff_mem (a : Char) (l : JStr) : [a] <:+: l ↔ a ∈ l := by
  constructor
  · intro h
    exact h.subset (List.mem_singleton_self a)
  · intro h
    obtain ⟨s, t, rfl⟩ := List.append_of_mem h
    exact ⟨s, t, by simp⟩

lemma contains_iff_mem (l : JStr) (a : Char) : l.contains a = true ↔ a ∈ l := by
  simp [List.contains, List.elem_iff]

lemma infix_dropWhile (q : Char → Bool) {p s : JStr} (h : p <:+: s)
    (hp : ∀ c ∈ p, q c = false) : p <:+: s.dropWhile q := by
  rcases p with _ | ⟨c, p'⟩
  · exact List.nil_infix
  · obtain ⟨a, b, rfl⟩ := h
    rw [List.append_assoc, List.dropWhile_append]
    split
    · rw [List.cons_append, List.dropWhile_cons_of_neg (by simp [hp c (by simp)])]
      exact (List.prefix_append _ _).isInfix
    · simpa [List.append_assoc] using
        List.infix_append (List.dropWhile q a) (c :: p') b

lemma infix_jsTrim {p s : JStr} (h : p <:+: s)
    (hp : ∀ c ∈ p, isJsWhitespace c = false) : p <:+: jsTrim s := by
  have step1 : p <:+: s.dropWhile isJsWhitespace := infix_dropWhile _ h hp
  have step2 : p.reverse <:+: (s.dropWhile isJsWhitespace).reverse :=
    List.reverse_infix.2 step1
  have step3 : p.reverse <:+: (s.dropWhile isJsWhitespace).reverse.dropWhile isJsWhitespace :=
    infix_dropWhile _ step2 (by intro c hc; exact hp c (List.mem_reverse.1 hc))
  unfold jsTrim
  have := List.reverse_infix.2 step3
  simpa using this

lemma jsTrim_infix_self (s : JStr) : jsTrim s <:+: s := by
  have h1 : s.dropWhile isJsWhitespace <:+ s := List.dropWhile_suffix _
  have h2 : (s.dropWhile isJsWhitespace).reverse.dropWhile isJsWhitespace <:+
      (s.dropWhile isJsWhitespace).reverse := List.dropWhile_suffix _
  have h3 : ((s.dropWhile isJsWhitespace).reverse.dropWhile isJsWhitespace).reverse <+:
      s.dropWhile isJsWhitespace := by
    rw [← List.reverse_suffix]
    simpa using h2
  unfold jsTrim
  exact h3.isInfix.trans h1.isInfix

lemma infix_stripControls {p s : JStr} (h : p <:+: s)
    (hp : ∀ c ∈ p, isControlChar c = false) : p <:+: stripControls s := by
  obtain ⟨a, b, rfl⟩ := h
  unfold stripControls
  have hfp : List.filter (fun c => !isControlChar c) p = p :=
    List.filter_eq_self.2 (by intro c hc; simp [hp c hc])
  exact ⟨_, _, by rw [List.filter_append, List.filter_append, hfp]⟩

lemma splitP_eq_cons (p : Char → Bool) (s : JStr) : ∃ h t, splitP p s = h :: t := by
  cases s with
  | nil => exact ⟨[], [], rfl⟩
  | cons c cs =>
    obtain ⟨h, t, heq⟩ := splitP_eq_cons p cs
    by_cases hc : p c
    · exact ⟨[], h :: t, by simp [splitP, heq, hc]⟩
    · exact ⟨c :: h, t, by simp [splitP, heq, hc]⟩

lemma splitP_cons_of_neg {p : Char → Bool} {c : Char} (hc : p c = false) {cs : JStr}
    {h : JStr} {t : List JStr} (heq : splitP p cs = h :: t) :
    splitP p (c :: cs) = (c :: h) :: t := by
  rw [splitP, heq]
  simp [hc]

lemma splitP_cons_of_pos {p : Char → Bool} {c : Char} (hc : p c = true) {cs : JStr}
    {h : JStr} {t : List JStr} (heq : splitP p cs = h :: t) :
    splitP p (c :: cs) = [] :: h :: t := by
  rw [splitP, heq]
  simp [hc]

lemma prefix_splitP_head (p : Char → Bool) :
    ∀ (q s h : JStr) (t : List JStr), (∀ c ∈ q, p c = false) → q <+: s →
      splitP p s = h :: t → q <+: h := by
  intro q
  induction q with
  | nil => intro s h t _ _ _; exact List.nil_prefix
  | cons d q' ih =>
    intro s h t hq hpre hsplit
    obtain ⟨rest, rfl⟩ := hpre
    obtain ⟨h', t', heq⟩ := splitP_eq_cons p (q' ++ rest)
    rw [List.cons_append, splitP_cons_of_neg (hq d (by simp)) heq] at hsplit
    injection hsplit with h1 h2
    subst h1
    exact List.cons_prefix_cons.2 ⟨rfl, ih _ _ _ (fun c hc => hq c (by simp [hc]))
      (List.prefix_append q' rest) heq⟩

lemma infix_mem_splitP (p : Char → Bool) :
    ∀ (q s : JStr), q ≠ [] → (∀ c ∈ q, p c = false) → q <:+: s →
      ∃ seg ∈ splitP p s, q <:+: seg := by
  intro q s
  induction s with
  | nil =>
    intro hq _ hinf
    exact absurd (List.eq_nil_of_infix_nil hinf) hq
  | cons c cs ih =>
    intro hq hpc hinf
    obtain ⟨h', t', heq⟩ := splitP_eq_cons p cs
    rcases List.infix_cons_iff.1 hinf with hpre | hinf'
    · rcases q with _ | ⟨d, q0⟩
      · exact absurd rfl hq
      · obtain ⟨hd, hq0⟩ := List.cons_prefix_cons.1 hpre
        subst hd
        have hdc : p d = false := hpc d (by simp)
        refine ⟨d :: h', ?_, ?_⟩
        · rw [splitP_cons_of_neg hdc heq]
          exact List.mem_cons_self _ _
        · exact (List.cons_prefix_cons.2 ⟨rfl, prefix_splitP_head p q0 cs h' t'
            (fun c hc => hpc c (by simp [hc])) hq0 heq⟩).isInfix
    · obtain ⟨seg, hmem, hseg⟩ := ih hq hpc hinf'
      rw [heq] at hmem
      by_cases hc : p c
      · refine ⟨seg, ?_, hseg⟩
        rw [splitP_cons_of_pos (by simpa using hc) heq]
        exact List.mem_cons_of_mem _ hmem
      · rcases List.mem_cons.1 hmem with rfl | hmem'
        · refine ⟨c :: seg, ?_, List.infix_cons_iff.2 (Or.inr hseg)⟩
          rw [splitP_cons_of_neg (by simpa using hc) heq]
          exact List.mem_cons_self _ _
        · refine ⟨seg, ?_, hseg⟩
          rw [splitP_cons_of_neg (by simpa using hc) heq]
          exact List.mem_cons_of_mem _ hmem'

lemma mem_dropEmptyButLast {seg : JStr} :
    ∀ {l : List JStr}, seg ∈ l → seg ≠ [] → seg ∈ dropEmptyButLast l := by
  intro l
  induction l with
  | nil => intro h _; exact absurd h (List.not_mem_nil _)
  | cons x xs ih =>
    intro hmem hne
    cases xs with
    | nil => simpa [dropEmptyButLast] using hmem
    | cons y t =>
      rcases List.mem_cons.1 hmem with rfl | hmem'
      · rw [dropEmptyButLast, if_neg hne]
        exact List.mem_cons_self _ _
      · by_cases hx : x = []
        · rw [dropEmptyButLast, if_pos hx]
          exact ih hmem' hne
        · rw [dropEmptyButLast, if_neg hx]
          exact List.mem_cons_of_mem _ (ih hmem' hne)

lemma mem_jsSplitSepRuns_of_mem_splitP {seg s : JStr}
    (hmem : seg ∈ splitP isSepChar s) (hne : seg ≠ []) : seg ∈ jsSplitSepRuns s := by
  obtain ⟨h, t, heq⟩ := splitP_eq_cons isSepChar s
  rw [jsSplitSepRuns, heq]
  rw [heq] at hmem
  rcases List.mem_cons.1 hmem with rfl | hmem'
  · exact List.mem_cons_self _ _
  · exact List.mem_cons_of_mem _ (mem_dropEmptyButLast hmem' hne)

@[simp] lemma exbind_error {α β : Type} (e : JsError) (f : α → Except JsError β) :
    (Except.error e >>= f) = Except.error e := rfl

@[simp] lemma exbind_ok {α β : Type} (a : α) (f : α → Except JsError β) :
    (Except.ok a >>= f) = f a := rfl

@[simp] lemma exmap_error {α β : Type} (e : JsError) (f : α → β) :
    (f <$> (Except.error e : Except JsError α)) = Except.error e := rfl

@[simp] lemma exmap_ok {α β : Type} (a : α) (f : α → β) :
    (f <$> (Except.ok a : Except JsError α)) = Except.ok (f a) := rfl

lemma mapMExcept_ok_of_mem {f : JStr → Except JsError JStr} :
    ∀ {l : List JStr} {y : List JStr}, mapMExcept f l = .ok y →
      ∀ x ∈ l, ∃ r, f x = .ok r := by
  intro l
  induction l with
  | nil => intro y _ x hx; exact absurd hx (List.not_mem_nil _)
  | cons a as ih =>
    intro y h x hx
    rw [mapMExcept] at h
    cases hfa : f a with
    | error e => rw [hfa] at h; simp at h
    | ok r =>
      rw [hfa] at h
      cases hrest : mapMExcept f as with
      | error e => rw [hrest] at h; simp at h
      | ok rs =>
        rcases List.mem_cons.1 hx with rfl | hx'
        · exact ⟨r, hfa⟩
        · exact ih hrest x hx'

lemma mapMExcept_error_mem {f : JStr → Except JsError JStr} :
    ∀ {l : List JStr} {e : JsError}, mapMExcept f l = .error e →
      ∃ x ∈ l, f x = .error e := by
  intro l
  induction l with
  | nil => intro e h; exact absurd h (by simp [mapMExcept])
  | cons a as ih =>
    intro e h
    rw [mapMExcept] at h
    cases hfa : f a with
    | error e' =>
      rw [hfa] at h
      simp only [exbind_error, Except.error.injEq] at h
      exact ⟨a, List.mem_cons_self _ _, by rw [hfa, h]⟩
    | ok r =>
      rw [hfa] at h
      cases hrest : mapMExcept f as with
      | error e' =>
        rw [hrest] at h
        simp only [exbind_ok, exbind_error, Except.error.injEq] at h
        obtain ⟨x, hx, hfx⟩ := ih hrest
        exact ⟨x, List.mem_cons_of_mem _ hx, by rw [hfx, h]⟩
      | ok rs => rw [hrest] at h; simp at h

lemma exbind_eq_ok {α β : Type} {x : Except JsError α} {f : α → Except JsError β} {y : β}
    (h : (x >>= f) = .ok y) : ∃ a, x = .ok a ∧ f a = .ok y := by
  cases x with
  | error e => simp at h
  | ok a => exact ⟨a, rfl, by simpa using h⟩

/-- The claim's scope condition on a folder or file-path value: after
trimming it contains `..`, contains `~`, begins with `/`, or begins with
`\`. -/
def traversalAttempt (s : JStr) : Prop :=
  isSubstr ['.', '.'] (jsTrim s) = true ∨ (jsTrim s).contains '~' = true ∨
    jsStartsWith ['/'] (jsTrim s) = true ∨ jsStartsWith ['\\'] (jsTrim s) = true

@[simp] lemma expure_eq {α : Type} (a : α) : (pure a : Except JsError α) = Except.ok a := rfl

@[simp] lemma exthrow_eq {α : Type} (e : JsError) :
    (throw e : Except JsError α) = Except.error e := rfl

lemma sanitizePathSegment_error_of_bad {seg : JStr}
    (hbad : ['.', '.'] <:+: seg ∨ '~' ∈ seg) :
    sanitizePathSegment seg = .error .pathTraversalError := by
  have hne : seg ≠ [] := by
    rcases hbad with h | h
    · intro hnil
      subst hnil
      have := List.eq_nil_of_infix_nil h
      simp at this
    · intro hnil
      subst hnil
      exact absurd h (List.not_mem_nil _)
  have hbad' : ['.', '.'] <:+: stripControls (jsTrim seg) ∨
      '~' ∈ stripControls (jsTrim seg) := by
    rcases hbad with h | h
    · exact Or.inl (infix_stripControls (infix_jsTrim h (by decide)) (by decide))
    · refine Or.inr ((singleton_infix_iff_mem _ _).1 ?_)
      exact infix_stripControls
        (infix_jsTrim ((singleton_infix_iff_mem _ _).2 h) (by decide)) (by decide)
  rw [sanitizePathSegment, if_neg hne]
  rw [if_pos]
  rcases hbad' with h | h
  · simp [(isSubstr_infix_iff _ _).2 h]
  · simp [h]

lemma sanitizePathSegment_error_eq {s : JStr} {e : JsError}
    (h : sanitizePathSegment s = .error e) : e = .pathTraversalError := by
  simp only [sanitizePathSegment] at h
  split at h
  · simp at h
  · split at h
    · injection h with h1; exact h1.symm
    · simp at h

lemma normalizePath_error_eq {s : JStr} {e : JsError}
    (h : normalizePath s = .error e) : e = .pathTraversalError := by
  rw [normalizePath] at h
  split at h
  · simp at h
  · cases hm : mapMExcept sanitizePathSegment (jsSplitSepRuns s) with
    | error e' =>
      rw [hm] at h
      simp only [exbind_error, Except.error.injEq] at h
      obtain ⟨x, _, hfx⟩ := mapMExcept_error_mem hm
      rw [h] at hfx
      exact sanitizePathSegment_error_eq hfx
    | ok y => rw [hm] at h; simp at h

lemma buildPathSegment_error_eq {s : JStr} {e : JsError}
    (h : buildPathSegment s = .error e) : e = .pathTraversalError := by
  rw [buildPathSegment] at h
  split at h
  · split at h
    · simp only [exthrow_eq, exbind_error, Except.error.injEq] at h
      exact h.symm
    · cases hn : normalizePath s with
      | error e' =>
        rw [hn] at h
        simp only [expure_eq, exbind_ok, exbind_error, Except.error.injEq] at h
        rw [h] at hn
        exact normalizePath_error_eq hn
      | ok v => rw [hn] at h; simp at h
  · simp at h

lemma normalizePath_error_of_bad {s : JStr}
    (hbad : isSubstr ['.', '.'] (jsTrim s) = true ∨ (jsTrim s).contains '~' = true) :
    normalizePath s = .error .pathTraversalError := by
  obtain ⟨seg, hmem, hsegbad⟩ :
      ∃ seg ∈ jsSplitSepRuns s, (['.', '.'] <:+: seg ∨ '~' ∈ seg) := by
    rcases hbad with h | h
    · have hq : ['.', '.'] <:+: s :=
        ((isSubstr_infix_iff _ _).1 h).trans (jsTrim_infix_self s)
      obtain ⟨seg, hmem, hinf⟩ := infix_mem_splitP isSepChar ['.', '.'] s
        (by simp) (by decide) hq
      have hne : seg ≠ [] := by
        intro hnil
        subst hnil
        have := List.eq_nil_of_infix_nil hinf
        simp at this
      exact ⟨seg, mem_jsSplitSepRuns_of_mem_splitP hmem hne, Or.inl hinf⟩
    · have hq : ['~'] <:+: s :=
        ((singleton_infix_iff_mem _ _).2 ((contains_iff_mem _ _).1 h)).trans (jsTrim_infix_self s)
      obtain ⟨seg, hmem, hinf⟩ := infix_mem_splitP isSepChar ['~'] s
        (by simp) (by decide) hq
      have hne : seg ≠ [] := by
        intro hnil
        subst hnil
        have := List.eq_nil_of_infix_nil hinf
        simp at this
      exact ⟨seg, mem_jsSplitSepRuns_of_mem_splitP hmem hne,
        Or.inr ((singleton_infix_iff_mem _ _).1 hinf)⟩
  have hs : s ≠ [] := by
    intro hnil
    subst hnil
    have hseg : seg = [] := by
      simpa [jsSplitSepRuns, splitP, dropEmptyButLast] using hmem
    subst hseg
    rcases hsegbad with h | h
    · have := List.eq_nil_of_infix_nil h
      simp at this
    · exact absurd h (List.not_mem_nil _)
  rw [normalizePath, if_neg hs]
  cases hm : mapMExcept sanitizePathSegment (jsSplitSepRuns s) with
  | error e =>
    obtain ⟨x, hx, hfx⟩ := mapMExcept_error_mem hm
    simp [sanitizePathSegment_error_eq hfx]
  | ok y =>
    obtain ⟨r, hr⟩ := mapMExcept_ok_of_mem hm seg hmem
    rw [sanitizePathSegment_error_of_bad hsegbad] at hr
    simp at hr

lemma buildPathSegment_error_of_attempt {s : JStr} (h : traversalAttempt s) :
    buildPathSegment s = .error .pathTraversalError := by
  have hs : s ≠ [] := by
    intro hnil
    subst hnil
    rcases h with h | h | h | h <;> exact absurd h (by decide)
  rw [buildPathSegment, if_pos hs]
  by_cases hstart : (jsStartsWith ['/'] (jsTrim s) || jsStartsWith ['\\'] (jsTrim s)) = true
  · rw [if_pos hstart]
    simp
  · rw [if_neg hstart]
    have hbad : isSubstr ['.', '.'] (jsTrim s) = true ∨ (jsTrim s).contains '~' = true := by
      rcases h with h | h | h | h
      · exact Or.inl h
      · exact Or.inr h
      · exact absurd hstart (by simp [h])
      · exact absurd hstart (by simp [h])
    simp only [expure_eq, exbind_ok]
    rw [normalizePath_error_of_bad hbad]
    simp

/-- C1: a path-traversal attempt in the folder or the file path makes
`buildUploadPath` fail with `PathTraversalError`; in particular the scenario
with hash `"../evil"` fails so. -/
theorem c1_traversal_attempts_raise (file : StrapiFile) (folder : JStr)
    (h : traversalAttempt folder ∨ ∃ p, file.path = some p ∧ traversalAttempt p) :
    buildUploadPath file folder = .error .pathTraversalError ∧
      buildUploadPath ⟨none, some (js "../evil"), some (js ".jpg"), none⟩ (js "uploads") =
        .error .pathTraversalError := by
  refine ⟨?_, by decide⟩
  rcases h with h | ⟨p, hp, h⟩
  · rw [buildUploadPath, buildPathSegment_error_of_attempt h]
    simp
  · rw [buildUploadPath]
    cases hf : buildPathSegment folder with
    | error e => simp [buildPathSegment_error_eq hf]
    | ok v => simp [hp, buildPathSegment_error_of_attempt h]

/-- Witness for `c1_traversal_attempts_raise` at folder `"../x"`. -/
theorem c1_traversal_attempts_raise_witness :
    buildUploadPath ⟨none, some (js "abc"), some (js ".jpg"), none⟩ (js "../x") =
      .error .pathTraversalError ∧
      buildUploadPath ⟨none, some (js "../evil"), some (js ".jpg"), none⟩ (js "uploads") =
        .error .pathTraversalError :=
  c1_traversal_attempts_raise ⟨none, some (js "abc"), some (js ".jpg"), none⟩ (js "../x")
    (Or.inl (Or.inl (by decide)))

/-- C3 (counterexample): a file URL whose pathname contains the configured
bucket, whose hostname differs from the endpoint and looks like a valid
domain, makes `getSignedUrl` raise `SignedUrlError` when the presign fails —
it does not return the original URL. -/
theorem c3_counterexample :
    pathnameContainsBucket (some (js "https://legacy.example.com/bkt/file.jpg"))
        (js "bkt") = true ∧
      (jsParseUrl (js "https://legacy.example.com/bkt/file.jpg")).map JsUrl.hostname =
        some (js "legacy.example.com") ∧
      (js "legacy.example.com").contains '.' = true ∧
      js "legacy.example.com" ≠ js "minio.internal" ∧
      getSignedUrl ⟨js "minio.internal", js "bkt", 604800⟩ (js "https://minio.internal/")
        (some (js "https://legacy.example.com/bkt/file.jpg")) none
        (fun _ _ => .error .genericError) = .error .signedUrlError := by decide

/-- C3 (amended): a file URL whose pathname contains the configured bucket is
accepted; when the presign fails, `getSignedUrl` raises `SignedUrlError`
whenever the lenient same-bucket check accepted the URL (which includes every
valid-looking foreign domain), and returns the original URL only when that
check rejected it. -/
theorem c3_amended_fallback (cfg : SignConfig) (hostUrl url filePath : JStr)
    (e : JsError) (presign : JStr → ℚ → Except JsError JStr)
    (hurl : url ≠ [])
    (hsig : isAlreadySignedUrl url = false)
    (hbkt : pathnameContainsBucket (some url) cfg.bucket = true)
    (hext : signExtractPath url hostUrl cfg.bucket = some filePath)
    (hexp : ¬(cfg.expiry ≤ 0 ∨ ¬isIntegerQ cfg.expiry = true))
    (hfail : presign filePath cfg.expiry = .error e) :
    (isFileFromSameBucket (some url) cfg.endPoint cfg.bucket = true →
        getSignedUrl cfg hostUrl (some url) none presign = .error .signedUrlError) ∧
      (isFileFromSameBucket (some url) cfg.endPoint cfg.bucket = false →
        getSignedUrl cfg hostUrl (some url) none presign = .ok url) := by
  have h1 : ¬cfg.expiry ≤ 0 := fun hc => hexp (Or.inl hc)
  have h2 : isIntegerQ cfg.expiry = true := by
    by_contra hc
    exact hexp (Or.inr hc)
  constructor <;> intro hsame <;>
    simp [getSignedUrl, hurl, hsig, hbkt, hext, hsame, chosenExpiry, hfail, h1, h2]

/-- Witness for `c3_amended_fallback` at the legacy-domain URL. -/
theorem c3_amended_fallback_witness :
    (isFileFromSameBucket (some (js "https://legacy.example.com/bkt/file.jpg"))
          (js "minio.internal") (js "bkt") = true →
        getSignedUrl ⟨js "minio.internal", js "bkt", 604800⟩ (js "https://minio.internal/")
          (some (js "https://legacy.example.com/bkt/file.jpg")) none
          (fun _ _ => .error .genericError) = .error .signedUrlError) ∧
      (isFileFromSameBucket (some (js "https://legacy.example.com/bkt/file.jpg"))
          (js "minio.internal") (js "bkt") = false →
        getSignedUrl ⟨js "minio.internal", js "bkt", 604800⟩ (js "https://minio.internal/")
          (some (js "https://legacy.example.com/bkt/file.jpg")) none
          (fun _ _ => .error .genericError) =
          .ok (js "https://legacy.example.com/bkt/file.jpg")) :=
  c3_amended_fallback ⟨js "minio.internal", js "bkt", 604800⟩ (js "https://minio.internal/")
    (js "https://legacy.example.com/bkt/file.jpg") (js "file.jpg") .genericError
    (fun _ _ => .error .genericError) (by decide) (by decide) (by decide) (by decide)
    (by decide) (by decide)

/-- C9 (counterexample): a requested expiry of `0` is falsy, so `getSignedUrl`
silently presigns with the configured default expiry instead of raising
`SignedUrlError`. -/
theorem c9_counterexample :
    getSignedUrl ⟨js "minio.internal", js "bkt", 604800⟩ (js "https://minio.internal/")
      (some (js "https://minio.internal/bkt/file.jpg")) (some 0)
      (fun _ q => if q = 604800 then .ok (js "signed-with-default-expiry")
        else .error .genericError) = .ok (js "signed-with-default-expiry") := by decide

/-- C9 (amended): the expiry used for presigning is `chosenExpiry` — the
requested value when truthy, the configured default when absent or zero; a
negative or non-integer chosen expiry makes `getSignedUrl` raise
`SignedUrlError` when the lenient same-bucket check accepted the URL, and
return the original URL otherwise. -/
theorem c9_amended_expiry (cfg : SignConfig) (hostUrl url filePath su : JStr)
    (expiresIn : Option ℚ) (presign : JStr → ℚ → Except JsError JStr)
    (hurl : url ≠ [])
    (hsig : isAlreadySignedUrl url = false)
    (hbkt : pathnameContainsBucket (some url) cfg.bucket = true)
    (hext : signExtractPath url hostUrl cfg.bucket = some filePath) :
    (¬(chosenExpiry expiresIn cfg.expiry ≤ 0 ∨
          ¬isIntegerQ (chosenExpiry expiresIn cfg.expiry) = true) →
        presign filePath (chosenExpiry expiresIn cfg.expiry) = .ok su →
        getSignedUrl cfg hostUrl (some url) expiresIn presign = .ok su) ∧
      ((chosenExpiry expiresIn cfg.expiry ≤ 0 ∨
          ¬isIntegerQ (chosenExpiry expiresIn cfg.expiry) = true) →
        (isFileFromSameBucket (some url) cfg.endPoint cfg.bucket = true →
          getSignedUrl cfg hostUrl (some url) expiresIn presign = .error .signedUrlError) ∧
        (isFileFromSameBucket (some url) cfg.endPoint cfg.bucket = false →
          getSignedUrl cfg hostUrl (some url) expiresIn presign = .ok url)) ∧
      chosenExpiry (some 0) cfg.expiry = cfg.expiry := by
  refine ⟨?_, ?_, by simp [chosenExpiry]⟩
  · intro hvalid hps
    have h1 : ¬chosenExpiry expiresIn cfg.expiry ≤ 0 := fun hc => hvalid (Or.inl hc)
    have h2 : isIntegerQ (chosenExpiry expiresIn cfg.expiry) = true := by
      by_contra hc
      exact hvalid (Or.inr hc)
    simp [getSignedUrl, hurl, hsig, hbkt, hext, hps, h1, h2]
  · intro hinvalid
    have hcond : (chosenExpiry expiresIn cfg.expiry ≤ 0 ∨
        isIntegerQ (chosenExpiry expiresIn cfg.expiry) = false) := by
      rcases hinvalid with h | h
      · exact Or.inl h
      · exact Or.inr (by simpa using h)
    constructor <;> intro hsame <;>
      simp [getSignedUrl, hurl, hsig, hbkt, hext, hsame] <;>
      rw [if_pos hcond]

/-- Witness for `c9_amended_expiry` at a same-endpoint URL. -/
theorem c9_amended_expiry_witness :
    (¬(chosenExpiry (some 3600) (604800 : ℚ) ≤ 0 ∨
          ¬isIntegerQ (chosenExpiry (some 3600) (604800 : ℚ)) = true) →
        (fun (_ : JStr) (q : ℚ) => if q = 3600 then Except.ok (js "signed")
          else Except.error JsError.genericError) (js "file.jpg")
          (chosenExpiry (some 3600) (604800 : ℚ)) = .ok (js "signed") →
        getSignedUrl ⟨js "minio.internal", js "bkt", 604800⟩ (js "https://minio.internal/")
          (some (js "https://minio.internal/bkt/file.jpg")) (some 3600)
          (fun _ q => if q = 3600 then Except.ok (js "signed")
            else Except.error JsError.genericError) = .ok (js "signed")) ∧
      ((chosenExpiry (some 3600) (604800 : ℚ) ≤ 0 ∨
          ¬isIntegerQ (chosenExpiry (some 3600) (604800 : ℚ)) = true) →
        (isFileFromSameBucket (some (js "https://minio.internal/bkt/file.jpg"))
            (js "minio.internal") (js "bkt") = true →
          getSignedUrl ⟨js "minio.internal", js "bkt", 604800⟩ (js "https://minio.internal/")
            (some (js "https://minio.internal/bkt/file.jpg")) (some 3600)
            (fun _ q => if q = 3600 then Except.ok (js "signed")
              else Except.error JsError.genericError) = .error .signedUrlError) ∧
        (isFileFromSameBucket (some (js "https://minio.internal/bkt/file.jpg"))
            (js "minio.internal") (js "bkt") = false →
          getSignedUrl ⟨js "minio.internal", js "bkt", 604800⟩ (js "https://minio.internal/")
            (some (js "https://minio.internal/bkt/file.jpg")) (some 3600)
            (fun _ q => if q = 3600 then Except.ok (js "signed")
              else Except.error JsError.genericError) = .ok
              (js "https://minio.internal/bkt/file.jpg"))) ∧
      chosenExpiry (some 0) (604800 : ℚ) = 604800 :=
  c9_amended_expiry ⟨js "minio.internal", js "bkt", 604800⟩ (js "https://minio.internal/")
    (js "https://minio.internal/bkt/file.jpg") (js "file.jpg") (js "signed") (some 3600)
    (fun _ q => if q = 3600 then Except.ok (js "signed") else Except.error JsError.genericError)
    (by decide) (by decide) (by decide) (by decide)

/-- C8 (counterexample): a hash consisting only of whitespace sanitizes to
the empty string, yet `buildUploadPath` returns a key (a dot-file name)
instead of raising `PathTraversalError`. -/
theorem c8_counterexample :
    sanitizePathSegment (js " ") = .ok [] ∧
      buildUploadPath ⟨none, some (js " "), some (js ".jpg"), none⟩ (js "uploads") =
        .ok (js "uploads/.jpg") := by decide

lemma pathBinder_error_eq {file : StrapiFile} {e : JsError}
    (h : (match file.path with
      | some p => buildPathSegment p
      | none => (pure [] : Except JsError (List JStr))) = .error e) :
    e = .pathTraversalError := by
  cases hpath : file.path with
  | some p => rw [hpath] at h; exact buildPathSegment_error_eq h
  | none => rw [hpath] at h; simp at h

/-- C8 (amended): a missing or empty hash or extension raises
`PathTraversalError`, and an extension that is empty after sanitization
raises `PathTraversalError`; (a hash that is merely empty after sanitization
is accepted, unlike what the original claim states). -/
theorem c8_amended_hash_ext (file : StrapiFile) (folder : JStr) :
    ((file.hash = none ∨ file.hash = some [] ∨ file.ext = none ∨ file.ext = some []) →
        buildUploadPath file folder = .error .pathTraversalError) ∧
      (∀ e, file.ext = some e → sanitizeExt e = .ok [] →
        buildUploadPath file folder = .error .pathTraversalError) := by
  obtain ⟨nm, fhash, fext, fpath⟩ := file
  constructor
  · intro hmiss
    simp only at hmiss
    rw [buildUploadPath]
    cases hf : buildPathSegment folder with
    | error e => simp [hf, buildPathSegment_error_eq hf]
    | ok fs =>
      simp only [hf, exbind_ok]
      cases fpath with
      | none =>
        simp only [expure_eq, exbind_ok]
        rcases hmiss with h | h | h | h
        · subst h; simp [requireString]
        · subst h; simp [requireString]
        · subst h
          cases fhash with
          | none => simp [requireString]
          | some hsh2 =>
            by_cases hh2 : hsh2 = [] <;> simp [requireString, hh2]
        · subst h
          cases fhash with
          | none => simp [requireString]
          | some hsh2 =>
            by_cases hh2 : hsh2 = [] <;> simp [requireString, hh2]
      | some p =>
        cases hp : buildPathSegment p with
        | error e => simp [hp, buildPathSegment_error_eq hp]
        | ok ps =>
          simp only [hp, exbind_ok]
          rcases hmiss with h | h | h | h
          · subst h; simp [requireString]
          · subst h; simp [requireString]
          · subst h
            cases fhash with
            | none => simp [requireString]
            | some hsh2 =>
              by_cases hh2 : hsh2 = [] <;> simp [requireString, hh2]
          · subst h
            cases fhash with
            | none => simp [requireString]
            | some hsh2 =>
              by_cases hh2 : hsh2 = [] <;> simp [requireString, hh2]
  · intro e hext hsan
    simp only at hext
    subst hext
    rw [buildUploadPath]
    cases hf : buildPathSegment folder with
    | error e' => simp [hf, buildPathSegment_error_eq hf]
    | ok fs =>
      simp only [hf, exbind_ok]
      cases fpath with
      | none =>
        simp only [expure_eq, exbind_ok]
        cases fhash with
        | none => simp [requireString]
        | some hsh =>
          by_cases hhe : hsh = []
          · simp [requireString, hhe]
          · by_cases hee : e = []
            · simp [requireString, hhe, hee]
            · simp only [requireString, if_neg hhe, if_neg hee, expure_eq, exbind_ok]
              cases hs2 : sanitizePathSegment hsh with
              | error e2 => simp [hs2, sanitizePathSegment_error_eq hs2]
              | ok r => simp [hs2, hsan]
      | some p =>
        cases hp : buildPathSegment p with
        | error e' => simp [hp, buildPathSegment_error_eq hp]
        | ok ps =>
          simp only [hp, exbind_ok]
          cases fhash with
          | none => simp [requireString]
          | some hsh =>
            by_cases hhe : hsh = []
            · simp [requireString, hhe]
            · by_cases hee : e = []
              · simp [requireString, hhe, hee]
              · simp only [requireString, if_neg hhe, if_neg hee, expure_eq, exbind_ok]
                cases hs2 : sanitizePathSegment hsh with
                | error e2 => simp [hs2, sanitizePathSegment_error_eq hs2]
                | ok r => simp [hs2, hsan]

/-- Witness for `c8_amended_hash_ext`: a missing hash and an extension that
sanitizes to nothing both raise. -/
theorem c8_amended_hash_ext_witness :
    buildUploadPath ⟨none, none, some (js ".jpg"), none⟩ (js "uploads") =
        .error .pathTraversalError ∧
      buildUploadPath ⟨none, some (js "abc"), some (js "."), none⟩ (js "uploads") =
        .error .pathTraversalError :=
  ⟨(c8_amended_hash_ext ⟨none, none, some (js ".jpg"), none⟩ (js "uploads")).1 (Or.inl rfl),
    (c8_amended_hash_ext ⟨none, some (js "abc"), some (js "."), none⟩ (js "uploads")).2
      (js ".") rfl (by decide)⟩

/-- No two adjacent characters are both `/`. -/
def noDoubleSlash : JStr → Bool
  | [] => true
  | [_] => true
  | a :: b :: t => !(a = '/' && b = '/') && noDoubleSlash (b :: t)

lemma not_substr_of_noDoubleSlash : ∀ {w : JStr}, noDoubleSlash w = true →
    isSubstr ['/', '/'] w = false := by
  intro w
  induction w with
  | nil => intro _; rfl
  | cons a t ih =>
    intro h
    cases t with
    | nil => simp [isSubstr, List.isPrefixOf]
    | cons b t' =>
      rw [noDoubleSlash, Bool.and_eq_true] at h
      obtain ⟨h1, h2⟩ := h
      rw [isSubstr, Bool.or_eq_false_iff]
      refine ⟨?_, ih h2⟩
      rw [Bool.not_eq_true'] at h1
      by_cases ha : a = '/'
      · simp only [ha, decide_eq_false_iff_not] at h1
        simp only [decide_True, Bool.true_and, decide_eq_false_iff_not] at h1
        simp [List.isPrefixOf, ha, Ne.symm h1]
      · simp [List.isPrefixOf, Ne.symm ha]

lemma not_slash_of_not_sep {c : Char} (h : isSepChar c = false) : c ≠ '/' := by
  simp [isSepChar] at h
  exact h.1

lemma not_backslash_of_not_sep {c : Char} (h : isSepChar c = false) : c ≠ '\\' := by
  simp [isSepChar] at h
  exact h.2

lemma collapseSlashes_cons_of_not_sep {b : Char} (hb : isSepChar b = false) (cs : JStr) :
    collapseSlashes (b :: cs) = b :: collapseSlashes cs := by
  cases cs with
  | nil => simp [collapseSlashes, hb]
  | cons c cs' => simp [collapseSlashes, hb]

lemma collapseSlashes_eq_self : ∀ {t : JStr}, (∀ c ∈ t, isSepChar c = false) →
    collapseSlashes t = t := by
  intro t
  induction t with
  | nil => intro _; rfl
  | cons b cs ih =>
    intro h
    rw [collapseSlashes_cons_of_not_sep (h b (by simp)) cs,
      ih (fun c hc => h c (by simp [hc]))]

lemma mem_collapseSlashes {c : Char} : ∀ {t : JStr}, c ∈ collapseSlashes t →
    (c ∈ t ∧ isSepChar c = false) ∨ c = '/' := by
  intro t
  induction t with
  | nil => intro h; simp [collapseSlashes] at h
  | cons a t ih =>
    cases t with
    | nil =>
      intro h
      rw [collapseSlashes] at h
      split at h
      · exact Or.inr (by simpa using h)
      · rename_i hsa
        rcases List.mem_singleton.1 h with rfl
        exact Or.inl ⟨by simp, by simpa using hsa⟩
    | cons b cs =>
      intro h
      rw [collapseSlashes] at h
      split at h
      · rcases ih h with ⟨hm, hs⟩ | hc
        · exact Or.inl ⟨List.mem_cons_of_mem _ hm, hs⟩
        · exact Or.inr hc
      · rcases List.mem_cons.1 h with hceq | hm
        · by_cases hsa : isSepChar a = true
          · rw [hceq, if_pos hsa]
            exact Or.inr rfl
          · rw [hceq, if_neg hsa]
            exact Or.inl ⟨by simp, by simpa using hsa⟩
        · rcases ih hm with ⟨hm', hs⟩ | hc
          · exact Or.inl ⟨List.mem_cons_of_mem _ hm', hs⟩
          · exact Or.inr hc

lemma noDoubleSlash_cons {x : Char} {r : JStr} (hr : noDoubleSlash r = true)
    (hxy : x ≠ '/' ∨ ∀ y ys, r = y :: ys → y ≠ '/') :
    noDoubleSlash (x :: r) = true := by
  cases r with
  | nil => rfl
  | cons y ys =>
    rw [noDoubleSlash, Bool.and_eq_true]
    refine ⟨?_, hr⟩
    rw [Bool.not_eq_true', Bool.and_eq_false_iff]
    rcases hxy with h | h
    · left; simp [h]
    · right; simp [h y ys rfl]

lemma noDoubleSlash_collapseSlashes : ∀ (t : JStr),
    noDoubleSlash (collapseSlashes t) = true := by
  intro t
  induction t with
  | nil => rfl
  | cons a t ih =>
    cases t with
    | nil =>
      rw [collapseSlashes]
      split <;> rfl
    | cons b cs =>
      rw [collapseSlashes]
      split
      · exact ih
      · rename_i hcond
        refine noDoubleSlash_cons ih ?_
        by_cases hsb : isSepChar b = true
        · have hsa : isSepChar a = false := by
            cases hh : isSepChar a with
            | false => rfl
            | true => exact absurd (by simp [hh, hsb]) hcond
          left
          rw [if_neg (by simp [hsa])]
          exact not_slash_of_not_sep hsa
        · right
          intro y ys heq
          rw [collapseSlashes_cons_of_not_sep (by simpa using hsb) cs] at heq
          injection heq with h1 _
          rw [← h1]
          exact not_slash_of_not_sep (by simpa using hsb)

lemma sanitizePathSegment_ok_inv {s w : JStr} (h : sanitizePathSegment s = .ok w) :
    w = [] ∨
      (w = collapseSlashes (stripControls (jsTrim s)) ∧
        isSubstr ['.', '.'] (stripControls (jsTrim s)) = false ∧
        (stripControls (jsTrim s)).contains '~' = false ∧
        jsStartsWith ['/'] (stripControls (jsTrim s)) = false ∧
        jsStartsWith ['\\'] (stripControls (jsTrim s)) = false) := by
  simp only [sanitizePathSegment] at h
  split at h
  · left
    injection h with h1
    exact h1.symm
  · split at h
    · simp at h
    · rename_i hcond
      right
      injection h with h1
      simp only [Bool.or_eq_true, not_or, Bool.not_eq_true] at hcond
      obtain ⟨⟨⟨hc1, hc2⟩, hc3⟩, hc4⟩ := hcond
      exact ⟨h1.symm, hc1, hc2, hc3, hc4⟩

lemma mem_stripTrim_subset {s : JStr} : ∀ c ∈ stripControls (jsTrim s), c ∈ s :=
  fun c hc => (jsTrim_infix_self s).subset (List.mem_of_mem_filter hc)

lemma mem_stripTrim_not_control {s : JStr} :
    ∀ c ∈ stripControls (jsTrim s), isControlChar c = false := by
  intro c hc
  have := (List.mem_filter.1 hc).2
  simpa using this

lemma sanitize_ok_char_facts {x w : JStr} (h : sanitizePathSegment x = .ok w) :
    (∀ c ∈ w, c ≠ '~' ∧ isControlChar c = false ∧ c ≠ '\\') ∧
      noDoubleSlash w = true ∧ ∀ d r, w = d :: r → isSepChar d = false := by
  rcases sanitizePathSegment_ok_inv h with rfl | ⟨rfl, _, ht, hs1, hs2⟩
  · exact ⟨by simp, rfl, by simp⟩
  · refine ⟨?_, noDoubleSlash_collapseSlashes _, ?_⟩
    · intro c hc
      rcases mem_collapseSlashes hc with ⟨hm, hsep⟩ | rfl
      · refine ⟨?_, mem_stripTrim_not_control c hm, not_backslash_of_not_sep hsep⟩
        intro hcc
        subst hcc
        rw [(contains_iff_mem _ _).2 hm] at ht
        simp at ht
      · exact ⟨by decide, by decide, by decide⟩
    · intro d r heq
      cases hx : stripControls (jsTrim x) with
      | nil => rw [hx] at heq; simp [collapseSlashes] at heq
      | cons x0 xs =>
        rw [hx] at heq hs1 hs2
        have hx0 : isSepChar x0 = false := by
          simp only [jsStartsWith, List.isPrefixOf] at hs1 hs2
          simp only [isSepChar]
          simp only [Bool.and_eq_false_iff, beq_eq_false_iff_ne] at hs1 hs2
          rcases hs1 with h1 | h1
          · rcases hs2 with h2 | h2
            · simp [Ne.symm h1, Ne.symm h2]
            · simp [List.isPrefixOf] at h2
          · simp [List.isPrefixOf] at h1
        rw [collapseSlashes_cons_of_not_sep hx0] at heq
        injection heq with h1 _
        rw [← h1]
        exact hx0

lemma mem_splitP_sepFree (p : Char → Bool) :
    ∀ (s : JStr) (x : JStr), x ∈ splitP p s → ∀ c ∈ x, p c = false := by
  intro s
  induction s with
  | nil =>
    intro x hx c hc
    rcases List.mem_singleton.1 hx with rfl
    exact absurd hc (List.not_mem_nil _)
  | cons a t ih =>
    intro x hx c hc
    obtain ⟨h', t', heq⟩ := splitP_eq_cons p t
    by_cases ha : p a = true
    · rw [splitP_cons_of_pos ha heq] at hx
      rcases List.mem_cons.1 hx with rfl | hx'
      · exact absurd hc (List.not_mem_nil _)
      · exact ih x (by rw [heq]; exact hx') c hc
    · rw [splitP_cons_of_neg (by simpa using ha) heq] at hx
      rcases List.mem_cons.1 hx with rfl | hx'
      · rcases List.mem_cons.1 hc with rfl | hc'
        · simpa using ha
        · exact ih h' (by rw [heq]; exact List.mem_cons_self _ _) c hc'
      · exact ih x (by rw [heq]; exact List.mem_cons_of_mem _ hx') c hc

lemma dropEmptyButLast_subset : ∀ {l : List JStr} {x : JStr},
    x ∈ dropEmptyButLast l → x ∈ l := by
  intro l
  induction l with
  | nil => intro x hx; simpa [dropEmptyButLast] using hx
  | cons a t ih =>
    intro x hx
    cases t with
    | nil => simpa [dropEmptyButLast] using hx
    | cons b t' =>
      rw [dropEmptyButLast] at hx
      split at hx
      · exact List.mem_cons_of_mem _ (ih hx)
      · rcases List.mem_cons.1 hx with rfl | hx'
        · exact List.mem_cons_self _ _
        · exact List.mem_cons_of_mem _ (ih hx')

lemma mem_jsSplitSepRuns_subset {x s : JStr} (h : x ∈ jsSplitSepRuns s) :
    x ∈ splitP isSepChar s := by
  obtain ⟨h', t', heq⟩ := splitP_eq_cons isSepChar s
  rw [jsSplitSepRuns, heq] at h
  rw [heq]
  rcases List.mem_cons.1 h with rfl | h2
  · exact List.mem_cons_self _ _
  · exact List.mem_cons_of_mem _ (dropEmptyButLast_subset h2)

lemma mapMExcept_ok_mem_rev {f : JStr → Except JsError JStr} :
    ∀ {l y : List JStr}, mapMExcept f l = .ok y →
      ∀ r ∈ y, ∃ x ∈ l, f x = .ok r := by
  intro l
  induction l with
  | nil =>
    intro y h r hr
    rw [mapMExcept] at h
    injection h with h1
    rw [← h1] at hr
    exact absurd hr (List.not_mem_nil _)
  | cons a as ih =>
    intro y h r hr
    rw [mapMExcept] at h
    cases hfa : f a with
    | error e => rw [hfa] at h; simp at h
    | ok v =>
      rw [hfa] at h
      cases hrest : mapMExcept f as with
      | error e => rw [hrest] at h; simp at h
      | ok vs =>
        rw [hrest] at h
        simp only [exbind_ok, expure_eq, Except.ok.injEq] at h
        rw [← h] at hr
        rcases List.mem_cons.1 hr with rfl | hr'
        · exact ⟨a, List.mem_cons_self _ _, hfa⟩
        · obtain ⟨x, hx, hfx⟩ := ih hrest r hr'
          exact ⟨x, List.mem_cons_of_mem _ hx, hfx⟩

lemma sanitize_ok_sepFree {x w : JStr} (hx : ∀ c ∈ x, isSepChar c = false)
    (h : sanitizePathSegment x = .ok w) :
    ∀ c ∈ w, isSepChar c = false ∧ c ≠ '~' ∧ isControlChar c = false := by
  rcases sanitizePathSegment_ok_inv h with rfl | ⟨rfl, _, ht, _, _⟩
  · simp
  · have hsubsep : ∀ c ∈ stripControls (jsTrim x), isSepChar c = false :=
      fun c hc => hx c (mem_stripTrim_subset c hc)
    rw [collapseSlashes_eq_self hsubsep]
    intro c hc
    refine ⟨hsubsep c hc, ?_, mem_stripTrim_not_control c hc⟩
    intro hcc
    subst hcc
    rw [(contains_iff_mem _ _).2 hc] at ht
    simp at ht

lemma normalizePath_ok_parts {s v : JStr} (h : normalizePath s = .ok v) :
    ∃ parts : List JStr, v = joinSep ['/'] parts ∧
      ∀ w ∈ parts, w ≠ [] ∧
        ∀ c ∈ w, isSepChar c = false ∧ c ≠ '~' ∧ isControlChar c = false := by
  rw [normalizePath] at h
  split at h
  · refine ⟨[], ?_, by simp⟩
    injection h with h1
    rw [← h1]
    rfl
  · cases hm : mapMExcept sanitizePathSegment (jsSplitSepRuns s) with
    | error e => rw [hm] at h; simp at h
    | ok y =>
      rw [hm] at h
      simp only [exbind_ok, expure_eq, Except.ok.injEq] at h
      refine ⟨y.filter (fun seg => decide (0 < seg.length)), h.symm, ?_⟩
      intro w hw
      have hwy : w ∈ y := List.mem_of_mem_filter hw
      have hwne : w ≠ [] := by
        have := (List.mem_filter.1 hw).2
        simp only [decide_eq_true_eq] at this
        intro hnil
        rw [hnil] at this
        simp at this
      obtain ⟨x, hxmem, hfx⟩ := mapMExcept_ok_mem_rev hm w hwy
      have hxsep : ∀ c ∈ x, isSepChar c = false :=
        mem_splitP_sepFree isSepChar s x (mem_jsSplitSepRuns_subset hxmem)
      exact ⟨hwne, sanitize_ok_sepFree hxsep hfx⟩

lemma joinSep_cons_eq {sep : JStr} : ∀ (y : JStr) (t : List JStr),
    ∃ r : JStr, joinSep sep (y :: t) = y ++ r := by
  intro y t
  cases t with
  | nil => exact ⟨[], by simp [joinSep]⟩
  | cons z t' => exact ⟨sep ++ joinSep sep (z :: t'), by rw [joinSep, List.append_assoc]⟩

lemma mem_joinSep {c : Char} : ∀ {parts : List JStr},
    c ∈ joinSep ['/'] parts → c = '/' ∨ ∃ w ∈ parts, c ∈ w := by
  intro parts
  induction parts with
  | nil => intro h; simp [joinSep] at h
  | cons y t ih =>
    cases t with
    | nil =>
      intro h
      exact Or.inr ⟨y, List.mem_singleton_self y, by simpa [joinSep] using h⟩
    | cons z t' =>
      intro h
      rw [joinSep] at h
      rcases List.mem_append.1 h with h1 | h2
      · rcases List.mem_append.1 h1 with h3 | h4
        · exact Or.inr ⟨y, List.mem_cons_self _ _, h3⟩
        · exact Or.inl (List.mem_singleton.1 h4)
      · rcases ih h2 with hc | ⟨w, hw, hcw⟩
        · exact Or.inl hc
        · exact Or.inr ⟨w, List.mem_cons_of_mem _ hw, hcw⟩

lemma noDoubleSlash_append_cons {c : Char} (hc : c ≠ '/') :
    ∀ {x y : JStr}, noDoubleSlash x = true → noDoubleSlash y = true →
      noDoubleSlash (x ++ c :: y) = true := by
  intro x
  induction x with
  | nil =>
    intro y _ hy
    exact noDoubleSlash_cons hy (Or.inl hc)
  | cons a t ih =>
    intro y hx hy
    cases t with
    | nil =>
      refine noDoubleSlash_cons (ih rfl hy) (Or.inr ?_)
      intro d ds heq
      injection heq with h1 _
      rw [← h1]
      exact hc
    | cons b t' =>
      rw [noDoubleSlash, Bool.and_eq_true] at hx
      obtain ⟨hpair, hx2⟩ := hx
      refine noDoubleSlash_cons (ih hx2 hy) ?_
      rw [Bool.not_eq_true', Bool.and_eq_false_iff] at hpair
      rcases hpair with hpa | hpb
      · left
        simpa using hpa
      · right
        intro d ds heq
        injection heq with h1 _
        rw [← h1]
        simpa using hpb

lemma noDoubleSlash_append_slash :
    ∀ {x y : JStr}, noDoubleSlash x = true → noDoubleSlash y = true →
      (∀ d, x.getLast? = some d → d ≠ '/') →
      (∀ d ds, y = d :: ds → d ≠ '/') →
      noDoubleSlash (x ++ '/' :: y) = true := by
  intro x
  induction x with
  | nil =>
    intro y _ hy _ hhead
    exact noDoubleSlash_cons hy (Or.inr hhead)
  | cons a t ih =>
    intro y hx hy hlast hhead
    cases t with
    | nil =>
      refine noDoubleSlash_cons (noDoubleSlash_cons hy (Or.inr hhead)) (Or.inl ?_)
      exact hlast a rfl
    | cons b t' =>
      rw [noDoubleSlash, Bool.and_eq_true] at hx
      obtain ⟨hpair, hx2⟩ := hx
      have hlast' : ∀ d, (b :: t').getLast? = some d → d ≠ '/' := by
        intro d hd
        exact hlast d (by rw [List.getLast?_cons_cons]; exact hd)
      refine noDoubleSlash_cons (ih hx2 hy hlast' hhead) ?_
      rw [Bool.not_eq_true', Bool.and_eq_false_iff] at hpair
      rcases hpair with hpa | hpb
      · left
        simpa using hpa
      · right
        intro d ds heq
        injection heq with h1 _
        rw [← h1]
        simpa using hpb

lemma noDoubleSlash_of_sepFree : ∀ {w : JStr}, (∀ c ∈ w, isSepChar c = false) →
    noDoubleSlash w = true := by
  intro w
  induction w with
  | nil => intro _; rfl
  | cons a t ih =>
    intro h
    refine noDoubleSlash_cons (ih (fun c hc => h c (by simp [hc]))) (Or.inl ?_)
    exact not_slash_of_not_sep (h a (by simp))

/-- The properties a normalized, sanitized path component enjoys. -/
def goodJoined (v : JStr) : Prop :=
  v ≠ [] ∧ noDoubleSlash v = true ∧
    (∀ d ds, v = d :: ds → isSepChar d = false) ∧
    (∀ d, v.getLast? = some d → d ≠ '/') ∧
    (∀ c ∈ v, c ≠ '~' ∧ isControlChar c = false ∧ c ≠ '\\')

lemma joinSep_getLast (sep : JStr) : ∀ (t : List JStr) (y : JStr),
    ∃ r, joinSep sep (y :: t) = r ++ (y :: t).getLast (by simp) := by
  intro t
  induction t with
  | nil => intro y; exact ⟨[], by simp [joinSep, List.getLast]⟩
  | cons z t' ih =>
    intro y
    obtain ⟨r', hr'⟩ := ih z
    refine ⟨y ++ sep ++ r', ?_⟩
    rw [joinSep, List.getLast_cons_cons, hr']
    simp [List.append_assoc]

lemma joinSep_ndouble : ∀ (parts : List JStr),
    (∀ w ∈ parts, w ≠ []) →
    (∀ w ∈ parts, noDoubleSlash w = true) →
    (∀ w ∈ parts, ∀ d ds, w = d :: ds → d ≠ '/') →
    (∀ w ∈ parts.dropLast, ∀ d, w.getLast? = some d → d ≠ '/') →
    noDoubleSlash (joinSep ['/'] parts) = true := by
  intro parts
  induction parts with
  | nil => intro _ _ _ _; rfl
  | cons x t ih =>
    intro hne hnd hhead hlast
    cases t with
    | nil => simpa [joinSep] using hnd x (by simp)
    | cons y t' =>
      rw [joinSep, List.append_assoc]
      have hstep : ['/'] ++ joinSep ['/'] (y :: t') = '/' :: joinSep ['/'] (y :: t') := rfl
      rw [hstep]
      refine noDoubleSlash_append_slash (hnd x (by simp)) ?_ ?_ ?_
      · refine ih (fun w hw => hne w (by simp [hw])) (fun w hw => hnd w (by simp [hw]))
          (fun w hw => hhead w (by simp [hw])) ?_
        intro w hw
        refine hlast w ?_
        show w ∈ (x :: y :: t').dropLast
        have : (x :: y :: t').dropLast = x :: (y :: t').dropLast := rfl
        rw [this]
        exact List.mem_cons_of_mem _ hw
      · intro d hd
        refine hlast x ?_ d hd
        have : (x :: y :: t').dropLast = x :: (y :: t').dropLast := rfl
        rw [this]
        exact List.mem_cons_self _ _
      · intro d ds heq
        obtain ⟨r, hr⟩ := joinSep_cons_eq y t'
        rw [hr] at heq
        cases y with
        | nil => exact absurd rfl (hne [] (by simp))
        | cons y0 ys =>
          injection heq with h1 _
          rw [← h1]
          exact hhead (y0 :: ys) (by simp) y0 ys rfl

lemma jsStartsWith_single_false {c0 d : Char} {r : JStr} (h : d ≠ c0) :
    jsStartsWith [c0] (d :: r) = false := by
  simp [jsStartsWith, List.isPrefixOf, Ne.symm h]

lemma normalizePath_ok_goodJoined {s v : JStr} (h : normalizePath s = .ok v)
    (hv : v ≠ []) : goodJoined v := by
  obtain ⟨parts, rfl, hparts⟩ := normalizePath_ok_parts h
  have hpne : parts ≠ [] := by
    intro hnil
    rw [hnil] at hv
    exact hv rfl
  obtain ⟨w0, pt, rfl⟩ := List.exists_cons_of_ne_nil hpne
  have hw0 := hparts w0 (by simp)
  refine ⟨hv, ?_, ?_, ?_, ?_⟩
  · refine joinSep_ndouble _ (fun w hw => (hparts w hw).1)
      (fun w hw => noDoubleSlash_of_sepFree (fun c hc => ((hparts w hw).2 c hc).1))
      (fun w hw d ds heq => not_slash_of_not_sep
        (((hparts w hw).2 d (by rw [heq]; simp)).1)) ?_
    intro w hw d hd
    have hwmem : w ∈ w0 :: pt := List.dropLast_subset _ hw
    exact not_slash_of_not_sep
      (((hparts w hwmem).2 d (List.mem_of_mem_getLast? hd)).1)
  · intro d ds heq
    obtain ⟨r, hr⟩ := joinSep_cons_eq w0 pt
    rw [hr] at heq
    cases hw00 : w0 with
    | nil => exact absurd hw00 hw0.1
    | cons a as =>
      rw [hw00] at heq
      injection heq with h1 _
      rw [← h1]
      exact (hw0.2 a (by rw [hw00]; simp)).1
  · intro d hd
    obtain ⟨r, hr⟩ := joinSep_getLast ['/'] pt w0
    rw [hr] at hd
    have hlne : (w0 :: pt).getLast (by simp) ≠ [] :=
      (hparts _ (List.getLast_mem _)).1
    rw [List.getLast?_append_of_ne_nil r hlne] at hd
    have hdmem := List.mem_of_mem_getLast? hd
    exact not_slash_of_not_sep ((hparts _ (List.getLast_mem _)).2 d hdmem).1
  · intro c hc
    rcases mem_joinSep hc with rfl | ⟨w, hw, hcw⟩
    · exact ⟨by decide, by decide, by decide⟩
    · obtain ⟨hsep, ht, hctrl⟩ := (hparts w hw).2 c hcw
      exact ⟨ht, hctrl, not_backslash_of_not_sep hsep⟩

lemma joined_key_good (pre : List JStr) (he : JStr)
    (hpre : ∀ w ∈ pre, goodJoined w)
    (hhe1 : he ≠ []) (hhe2 : noDoubleSlash he = true)
    (hhe3 : ∀ d ds, he = d :: ds → isSepChar d = false)
    (hhe4 : ∀ c ∈ he, c ≠ '~' ∧ isControlChar c = false ∧ c ≠ '\\') :
    (∀ c ∈ joinSep ['/'] (pre ++ [he]), c ≠ '~' ∧ isControlChar c = false ∧ c ≠ '\\') ∧
      jsStartsWith ['/'] (joinSep ['/'] (pre ++ [he])) = false ∧
      jsStartsWith ['\\'] (joinSep ['/'] (pre ++ [he])) = false ∧
      isSubstr ['/', '/'] (joinSep ['/'] (pre ++ [he])) = false := by
  have hall : ∀ w ∈ pre ++ [he], w ≠ [] ∧ noDoubleSlash w = true ∧
      (∀ d ds, w = d :: ds → isSepChar d = false) ∧
      (∀ c ∈ w, c ≠ '~' ∧ isControlChar c = false ∧ c ≠ '\\') := by
    intro w hw
    rcases List.mem_append.1 hw with hw1 | hw2
    · obtain ⟨a1, a2, a3, _, a5⟩ := hpre w hw1
      exact ⟨a1, a2, a3, a5⟩
    · rcases List.mem_singleton.1 hw2 with rfl
      exact ⟨hhe1, hhe2, hhe3, hhe4⟩
  refine ⟨?_, ?_, ?_, ?_⟩
  · intro c hc
    rcases mem_joinSep hc with rfl | ⟨w, hw, hcw⟩
    · exact ⟨by decide, by decide, by decide⟩
    · exact (hall w hw).2.2.2 c hcw
  · obtain ⟨w0, pt, heq⟩ : ∃ w0 pt, pre ++ [he] = w0 :: pt := by
      cases pre with
      | nil => exact ⟨he, [], rfl⟩
      | cons a t => exact ⟨a, t ++ [he], rfl⟩
    rw [heq]
    obtain ⟨r, hr⟩ := joinSep_cons_eq w0 pt
    rw [hr]
    have hw0 := hall w0 (by rw [heq]; simp)
    cases hw00 : w0 with
    | nil => exact absurd hw00 hw0.1
    | cons a as =>
      exact jsStartsWith_single_false
        (not_slash_of_not_sep (hw0.2.2.1 a as hw00))
  · obtain ⟨w0, pt, heq⟩ : ∃ w0 pt, pre ++ [he] = w0 :: pt := by
      cases pre with
      | nil => exact ⟨he, [], rfl⟩
      | cons a t => exact ⟨a, t ++ [he], rfl⟩
    rw [heq]
    obtain ⟨r, hr⟩ := joinSep_cons_eq w0 pt
    rw [hr]
    have hw0 := hall w0 (by rw [heq]; simp)
    cases hw00 : w0 with
    | nil => exact absurd hw00 hw0.1
    | cons a as =>
      exact jsStartsWith_single_false
        (not_backslash_of_not_sep (hw0.2.2.1 a as hw00))
  · refine not_substr_of_noDoubleSlash (joinSep_ndouble _ (fun w hw => (hall w hw).1)
      (fun w hw => (hall w hw).2.1)
      (fun w hw d ds hd => not_slash_of_not_sep ((hall w hw).2.2.1 d ds hd)) ?_)
    intro w hw d hd
    rw [List.dropLast_concat] at hw
    exact (hpre w hw).2.2.2.1 d hd

lemma buildPathSegment_ok_inv {s : JStr} {segs : List JStr}
    (h : buildPathSegment s = .ok segs) :
    segs = [] ∨ ∃ v, segs = [v] ∧ normalizePath s = .ok v ∧ v ≠ [] := by
  rw [buildPathSegment] at h
  split at h
  · split at h
    · simp at h
    · cases hn : normalizePath s with
      | error e => rw [hn] at h; simp at h
      | ok v =>
        rw [hn] at h
        simp only [expure_eq, exbind_ok, Except.ok.injEq] at h
        by_cases hv : 0 < v.length
        · right
          refine ⟨v, ?_, rfl, by intro hnil; rw [hnil] at hv; simp at hv⟩
          rw [← h, if_pos hv]
        · left
          rw [← h, if_neg hv]
  · left
    simp only [expure_eq, Except.ok.injEq] at h
    exact h.symm

lemma buildTail_ok_inv {file : StrapiFile} {pre1 pre2 : List JStr} {k : JStr}
    (h : (requireString file.hash >>= fun hash =>
      requireString file.ext >>= fun ext =>
      sanitizePathSegment hash >>= fun sanitizedHash =>
      sanitizeExt ext >>= fun sanitizedExt =>
      if sanitizedExt = [] then throw JsError.pathTraversalError
      else pure (joinSep ['/'] (pre1 ++ pre2 ++ [sanitizedHash ++ '.' :: sanitizedExt]))) =
        .ok k) :
    ∃ sh se : JStr, (∃ hs, sanitizePathSegment hs = .ok sh) ∧
      (∃ exs, sanitizePathSegment exs = .ok se) ∧ se ≠ [] ∧
      k = joinSep ['/'] (pre1 ++ pre2 ++ [sh ++ '.' :: se]) := by
  obtain ⟨hs0, hhs, h⟩ := exbind_eq_ok h
  obtain ⟨ex0, hex, h⟩ := exbind_eq_ok h
  obtain ⟨sh, hsh, h⟩ := exbind_eq_ok h
  obtain ⟨se, hse, h⟩ := exbind_eq_ok h
  by_cases hne : se = []
  · rw [if_pos hne] at h
    simp at h
  · rw [if_neg hne] at h
    simp only [expure_eq, Except.ok.injEq] at h
    refine ⟨sh, se, ⟨hs0, hsh⟩, ?_, hne, h.symm⟩
    rcases ex0 with _ | ⟨c, r⟩
    · exact ⟨[], hse⟩
    · rw [sanitizeExt] at hse
      by_cases hc : c = '.'
      · rw [if_pos hc] at hse
        exact ⟨r, hse⟩
      · rw [if_neg hc] at hse
        exact ⟨c :: r, hse⟩

lemma buildUploadPath_ok_inv {file : StrapiFile} {folder k : JStr}
    (h : buildUploadPath file folder = .ok k) :
    ∃ (fSegs pSegs : List JStr) (sh se : JStr),
      (fSegs = [] ∨ ∃ v, fSegs = [v] ∧ (∃ s', normalizePath s' = .ok v) ∧ v ≠ []) ∧
        (pSegs = [] ∨ ∃ v, pSegs = [v] ∧ (∃ s', normalizePath s' = .ok v) ∧ v ≠ []) ∧
        (∃ hs, sanitizePathSegment hs = .ok sh) ∧
        (∃ exs, sanitizePathSegment exs = .ok se) ∧ se ≠ [] ∧
        k = joinSep ['/'] (fSegs ++ pSegs ++ [sh ++ '.' :: se]) := by
  rw [buildUploadPath] at h
  obtain ⟨fSegs, hf, h⟩ := exbind_eq_ok h
  have hfprop : fSegs = [] ∨ ∃ v, fSegs = [v] ∧ (∃ s', normalizePath s' = .ok v) ∧ v ≠ [] := by
    rcases buildPathSegment_ok_inv hf with h1 | ⟨v, h1, h2, h3⟩
    · exact Or.inl h1
    · exact Or.inr ⟨v, h1, ⟨folder, h2⟩, h3⟩
  cases hpath : file.path with
  | some p =>
    rw [hpath] at h
    obtain ⟨pSegs, hp, h⟩ := exbind_eq_ok h
    obtain ⟨sh, se, hsh, hex, hne, hk⟩ := buildTail_ok_inv h
    refine ⟨fSegs, pSegs, sh, se, hfprop, ?_, hsh, hex, hne, hk⟩
    rcases buildPathSegment_ok_inv hp with h1 | ⟨v, h1, h2, h3⟩
    · exact Or.inl h1
    · exact Or.inr ⟨v, h1, ⟨p, h2⟩, h3⟩
  | none =>
    rw [hpath] at h
    obtain ⟨pSegs, hp, h⟩ := exbind_eq_ok h
    obtain ⟨sh, se, hsh, hex, hne, hk⟩ := buildTail_ok_inv h
    refine ⟨fSegs, pSegs, sh, se, hfprop, ?_, hsh, hex, hne, hk⟩
    simp only [expure_eq, Except.ok.injEq] at hp
    exact Or.inl hp.symm

/-- C4 (counterexample): `buildUploadPath` can return a key containing `..` —
a hash ending in a dot joined with the dot before the extension. -/
theorem c4_counterexample :
    buildUploadPath ⟨none, some (js "a."), some (js ".jpg"), none⟩ [] = .ok (js "a..jpg") ∧
      isSubstr ['.', '.'] (js "a..jpg") = true := by decide

/-- C4 (amended): every key returned by `buildUploadPath` contains no `~`, no
NUL or other ASCII control character (C0 or DEL), no backslash, does not
begin with `/` or `\`, and contains no repeated `/`; (the original claim's
`..`-freedom clause fails — `..` can appear inside the final `hash.ext`
segment). -/
theorem c4_amended_key_invariants (file : StrapiFile) (folder k : JStr)
    (h : buildUploadPath file folder = .ok k) :
    (∀ c ∈ k, c ≠ '~' ∧ isControlChar c = false ∧ c ≠ '\\') ∧
      jsStartsWith ['/'] k = false ∧ jsStartsWith ['\\'] k = false ∧
      isSubstr ['/', '/'] k = false := by
  obtain ⟨fSegs, pSegs, sh, se, hfp, hpp, ⟨hs0, hsh⟩, ⟨ex0, hex⟩, hne, rfl⟩ :=
    buildUploadPath_ok_inv h
  have hpre : ∀ w ∈ fSegs ++ pSegs, goodJoined w := by
    intro w hw
    rcases List.mem_append.1 hw with hw1 | hw2
    · rcases hfp with rfl | ⟨v, rfl, ⟨s', hs'⟩, hvne⟩
      · exact absurd hw1 (List.not_mem_nil _)
      · rcases List.mem_singleton.1 hw1 with rfl
        exact normalizePath_ok_goodJoined hs' hvne
    · rcases hpp with rfl | ⟨v, rfl, ⟨s', hs'⟩, hvne⟩
      · exact absurd hw2 (List.not_mem_nil _)
      · rcases List.mem_singleton.1 hw2 with rfl
        exact normalizePath_ok_goodJoined hs' hvne
  obtain ⟨hchars_sh, hnd_sh, hhead_sh⟩ := sanitize_ok_char_facts hsh
  obtain ⟨hchars_se, hnd_se, _⟩ := sanitize_ok_char_facts hex
  have hhe1 : sh ++ '.' :: se ≠ [] := by cases sh <;> simp
  have hhe2 : noDoubleSlash (sh ++ '.' :: se) = true :=
    noDoubleSlash_append_cons (by decide) hnd_sh hnd_se
  have hhe3 : ∀ d ds, sh ++ '.' :: se = d :: ds → isSepChar d = false := by
    intro d ds heq
    cases hsh0 : sh with
    | nil =>
      rw [hsh0] at heq
      simp only [List.nil_append] at heq
      injection heq with h1 _
      rw [← h1]
      decide
    | cons a as =>
      rw [hsh0] at heq
      injection heq with h1 _
      rw [← h1]
      exact hhead_sh a as hsh0
  have hhe4 : ∀ c ∈ sh ++ '.' :: se, c ≠ '~' ∧ isControlChar c = false ∧ c ≠ '\\' := by
    intro c hc
    rcases List.mem_append.1 hc with h1 | h2
    · exact hchars_sh c h1
    · rcases List.mem_cons.1 h2 with rfl | h3
      · exact ⟨by decide, by decide, by decide⟩
      · exact hchars_se c h3
  exact joined_key_good (fSegs ++ pSegs) (sh ++ '.' :: se) hpre hhe1 hhe2 hhe3 hhe4

/-- Witness for `c4_amended_key_invariants` at the standard scenario key. -/
theorem c4_amended_key_invariants_witness :
    (∀ c ∈ js "uploads/abc123.jpg", c ≠ '~' ∧ isControlChar c = false ∧ c ≠ '\\') ∧
      jsStartsWith ['/'] (js "uploads/abc123.jpg") = false ∧
      jsStartsWith ['\\'] (js "uploads/abc123.jpg") = false ∧
      isSubstr ['/', '/'] (js "uploads/abc123.jpg") = false :=
  c4_amended_key_invariants ⟨none, some (js "abc123"), some (js ".jpg"), none⟩
    (js "uploads") (js "uploads/abc123.jpg") (by decide)

lemma isBucketChar_of_lower {c : Char} (h : isLowerAlnum c = true) :
    isBucketChar c = true := by
  simp [isBucketChar, h]

lemma specBucketRegex_canonical (c : Char) (m : JStr) (d : Char) :
    specBucketRegex (c :: (m ++ [d])) =
      (isLowerAlnum c && isLowerAlnum d && m.all isBucketChar &&
        decide (1 ≤ m.length) && decide (m.length ≤ 61)) := by
  simp only [specBucketRegex, List.getLast?_concat, List.dropLast_concat]

lemma isValidBucketName_canonical (c : Char) (m : JStr) (d : Char) :
    isValidBucketName (c :: (m ++ [d])) = true ↔
      (isLowerAlnum c = true ∧ isLowerAlnum d = true ∧ m.all isBucketChar = true ∧
        1 ≤ m.length ∧ m.length ≤ 61 ∧ isValidIPv4 (c :: (m ++ [d])) = false ∧
        isSubstr ['.', '.'] (c :: (m ++ [d])) = false) := by
  have hl : (c :: (m ++ [d])).getLast? = some d := by
    rw [show c :: (m ++ [d]) = (c :: m) ++ [d] from rfl]
    exact List.getLast?_concat _
  have hlen : (c :: (m ++ [d])).length = m.length + 2 := by simp
  rw [isValidBucketName]
  constructor
  · intro h
    split at h
    · simp at h
    · split at h
      · simp at h
      · split at h
        · simp at h
        · split at h
          · simp at h
          · rename_i h1 h2 h3 h4
            rw [hlen] at h1
            simp only [Bool.or_eq_true, decide_eq_true_eq, not_or, not_lt] at h1
            simp [hl] at h2
            simp only [List.all_cons, List.all_append, List.all_cons, List.all_nil,
              Bool.and_eq_true, Bool.and_true] at h
            exact ⟨h2.1, h2.2, h.2.1, by omega, by omega,
              by simpa using h3, by simpa using h4⟩
  · rintro ⟨hc, hd, hm, hm1, h61, hip, hdd⟩
    have g1 : ¬(((c :: (m ++ [d])).length < 3 ||
        decide (63 < (c :: (m ++ [d])).length)) = true) := by
      simp only [hlen, Bool.or_eq_true, decide_eq_true_eq, not_or, not_lt]
      omega
    rw [if_neg g1]
    rw [if_neg (by simp [hl, hc, hd])]
    rw [if_neg (by simp [hip])]
    rw [if_neg (by simp [hdd])]
    simp [List.all_cons, List.all_append, hc, hm,
      isBucketChar_of_lower hc, isBucketChar_of_lower hd]


/-- With endpoint `localhost`, access key `k`, secret key `s` and every other
field absent, configuration validation succeeds exactly when the (already
trimmed, nonempty) bucket name is valid. -/
lemma validate_localhost_config (b : JStr) (htrim : jsTrim b = b) (hb : b ≠ []) :
    validateAndNormalizeConfig
        { endPoint := some (js "localhost"), accessKey := some (js "k"),
          secretKey := some (js "s"), bucket := some b } =
      (if isValidBucketName b then
        .ok { endPoint := js "localhost", port := DEFAULT_PORT_HTTP,
              useSSL := false, accessKey := js "k", secretKey := js "s",
              bucket := b, folder := [], privateFlag := false,
              expiry := DEFAULT_EXPIRY,
              connectTimeout := DEFAULT_CONNECT_TIMEOUT, requestTimeout := none,
              debug := false, rejectUnauthorized := true,
              maxRetries := DEFAULT_MAX_RETRIES,
              retryDelay := DEFAULT_RETRY_DELAY, keepAlive := false }
      else .error .configurationError) := by
  cases hv : isValidBucketName b with
  | false =>
    rw [validateAndNormalizeConfig]
    simp +decide [parseBoolean, resolvePort, resolveExpiry, htrim, hb, hv]
  | true =>
    rw [validateAndNormalizeConfig]
    simp +decide [parseBoolean, resolvePort, resolveExpiry, htrim, hb, hv]

/-- C5: bucket-name validation accepts exactly the strings that match the
spec's regular expression, contain no `..`, and are not IPv4 literals; and
with the remaining fields valid, `validateAndNormalizeConfig` succeeds on an
(already trimmed) bucket name exactly when it is accepted, raising
`ConfigurationError` otherwise. -/
theorem c5_bucket_validation (b : JStr) :
    (isValidBucketName b = true ↔
        (specBucketRegex b = true ∧ isSubstr ['.', '.'] b = false ∧
          isValidIPv4 b = false)) ∧
      (jsTrim b = b →
        ((∃ cfg, validateAndNormalizeConfig
            { endPoint := some (js "localhost"), accessKey := some (js "k"),
              secretKey := some (js "s"), bucket := some b } = .ok cfg) ↔
          isValidBucketName b = true)) := by
  constructor
  · rcases b with _ | ⟨c, rest⟩
    · simp [isValidBucketName, specBucketRegex]
    · rcases rest with _ | ⟨r0, rt⟩
      · simp [isValidBucketName, specBucketRegex]
      · have hrne : (r0 :: rt) ≠ [] := by simp
        obtain ⟨m, d, hmd⟩ : ∃ m d, r0 :: rt = m ++ [d] :=
          ⟨(r0 :: rt).dropLast, (r0 :: rt).getLast hrne,
            (List.dropLast_append_getLast hrne).symm⟩
        rw [hmd, isValidBucketName_canonical, specBucketRegex_canonical]
        constructor
        · rintro ⟨hc, hd, hm, hm1, h61, hip, hdd⟩
          refine ⟨?_, hdd, hip⟩
          simp [hc, hd, hm, hm1, h61]
        · rintro ⟨hre, hdd, hip⟩
          simp only [Bool.and_eq_true, decide_eq_true_eq] at hre
          obtain ⟨⟨⟨⟨hA, hB⟩, hM⟩, hL1⟩, hL61⟩ := hre
          exact ⟨hA, hB, hM, hL1, hL61, hip, hdd⟩
  · intro htrim
    by_cases hb : b = []
    · subst hb
      constructor
      · rintro ⟨cfg, hcfg⟩
        rw [show validateAndNormalizeConfig
            { endPoint := some (js "localhost"), accessKey := some (js "k"),
              secretKey := some (js "s"), bucket := some [] } =
            .error .configurationError from by decide] at hcfg
        exact absurd hcfg (by simp)
      · intro hv
        exact absurd hv (by decide)
    · rw [validate_localhost_config b htrim hb]
      constructor
      · rintro ⟨cfg, hcfg⟩
        by_contra hv
        rw [Bool.not_eq_true] at hv
        rw [hv] at hcfg
        simp at hcfg
      · intro hv
        rw [hv]
        exact ⟨_, rfl⟩

/-- Witness for C5 at the concrete bucket name `my-bucket`. -/
theorem c5_bucket_validation_witness :
    isValidBucketName (js "my-bucket") = true ∧
      ∃ cfg, validateAndNormalizeConfig
          { endPoint := some (js "localhost"), accessKey := some (js "k"),
            secretKey := some (js "s"), bucket := some (js "my-bucket") } =
        .ok cfg := by
  refine ⟨by decide, ?_⟩
  exact ((c5_bucket_validation (js "my-bucket")).2 (by decide)).mpr (by decide)

/-- With valid endpoint, keys and bucket, configuration validation succeeds
for every port/SSL combination, and the normalized port is the resolved port
with the SSL auto-correction (9000 becomes 443 when SSL is on) applied. -/
lemma validate_port_config (p : Option NumOrStr) (ssl : Bool) :
    validateAndNormalizeConfig
        { endPoint := some (js "localhost"), accessKey := some (js "k"),
          secretKey := some (js "s"), bucket := some (js "my-bucket"),
          port := p, useSSL := some (.bool ssl) } =
      .ok { endPoint := js "localhost",
            port := if ssl ∧ resolvePort p ssl = DEFAULT_PORT_HTTP
              then DEFAULT_PORT_HTTPS else resolvePort p ssl,
            useSSL := ssl, accessKey := js "k", secretKey := js "s",
            bucket := js "my-bucket", folder := [], privateFlag := false,
            expiry := DEFAULT_EXPIRY, connectTimeout := DEFAULT_CONNECT_TIMEOUT,
            requestTimeout := none, debug := false, rejectUnauthorized := true,
            maxRetries := DEFAULT_MAX_RETRIES, retryDelay := DEFAULT_RETRY_DELAY,
            keepAlive := false } := by
  rw [validateAndNormalizeConfig]
  simp +decide [parseBoolean]

/-- C6: with no port supplied, normalization yields port 9000 when SSL is
off and 443 when SSL is on; a resolved (supplied or defaulted) port of 9000
with SSL enabled is auto-corrected to 443; a resolved port of 443 with SSL
disabled is left at 443. -/
theorem c6_port_defaults_and_autocorrect (p : Option NumOrStr) (ssl : Bool) :
    ((validateAndNormalizeConfig
        { endPoint := some (js "localhost"), accessKey := some (js "k"),
          secretKey := some (js "s"), bucket := some (js "my-bucket"),
          port := none, useSSL := some (.bool ssl) }).map
        NormalizedConfig.port =
      .ok (if ssl then DEFAULT_PORT_HTTPS else DEFAULT_PORT_HTTP)) ∧
    (ssl = true → resolvePort p ssl = DEFAULT_PORT_HTTP →
      (validateAndNormalizeConfig
        { endPoint := some (js "localhost"), accessKey := some (js "k"),
          secretKey := some (js "s"), bucket := some (js "my-bucket"),
          port := p, useSSL := some (.bool ssl) }).map
        NormalizedConfig.port = .ok DEFAULT_PORT_HTTPS) ∧
    (ssl = false → resolvePort p ssl = DEFAULT_PORT_HTTPS →
      (validateAndNormalizeConfig
        { endPoint := some (js "localhost"), accessKey := some (js "k"),
          secretKey := some (js "s"), bucket := some (js "my-bucket"),
          port := p, useSSL := some (.bool ssl) }).map
        NormalizedConfig.port = .ok DEFAULT_PORT_HTTPS) := by
  refine ⟨?_, ?_, ?_⟩
  · rw [validate_port_config none ssl]
    cases ssl
    · simp +decide [resolvePort]
    · simp +decide [resolvePort]
  · intro hssl hp
    subst hssl
    rw [validate_port_config p true]
    simp [hp, Except.map]
  · intro hssl hp
    subst hssl
    rw [validate_port_config p false]
    simp [hp, Except.map]

/-- Witness for C6: SSL on with an explicit port 9000 is auto-corrected to
443, and with SSL off the defaulted port is 9000. -/
theorem c6_port_defaults_and_autocorrect_witness :
    ((validateAndNormalizeConfig
        { endPoint := some (js "localhost"), accessKey := some (js "k"),
          secretKey := some (js "s"), bucket := some (js "my-bucket"),
          port := none, useSSL := some (.bool false) }).map
        NormalizedConfig.port = .ok DEFAULT_PORT_HTTP) ∧
    ((validateAndNormalizeConfig
        { endPoint := some (js "localhost"), accessKey := some (js "k"),
          secretKey := some (js "s"), bucket := some (js "my-bucket"),
          port := some (.num 9000), useSSL := some (.bool true) }).map
        NormalizedConfig.port = .ok DEFAULT_PORT_HTTPS) := by
  constructor
  · exact (c6_port_defaults_and_autocorrect none false).1
  · exact (c6_port_defaults_and_autocorrect (some (.num 9000)) true).2.1 rfl
      (by decide)

lemma char_le_iff (a c : Char) : (a ≤ c) ↔ a.toNat ≤ c.toNat := Iff.rfl

lemma char_eq_iff (c a : Char) : (c = a) ↔ c.toNat = a.toNat :=
  ⟨by rintro rfl; rfl, fun h => Char.ext (UInt32.ext h)⟩

lemma char_isDigit_iff (c : Char) : c.isDigit = true ↔ 48 ≤ c.toNat ∧ c.toNat ≤ 57 := by
  simp only [Char.isDigit, Bool.and_eq_true, decide_eq_true_eq]
  exact Iff.rfl

lemma ipv4OctetMatch_eq_spec (s : JStr) : ipv4OctetMatch s = specIPv4Octet s := by
  rcases s with _ | ⟨c0, _ | ⟨c1, _ | ⟨c2, _ | ⟨c3, t⟩⟩⟩⟩
  · rfl
  · rw [Bool.eq_iff_iff]
    simp only [ipv4OctetMatch, specIPv4Octet, natOfDigits, List.foldl,
      List.all_cons, List.all_nil, List.length_cons, List.length_nil,
      Bool.and_eq_true, Bool.and_true, decide_eq_true_eq, char_isDigit_iff,
      ne_eq, reduceCtorEq, not_false_eq_true, true_and]
    omega
  · rw [Bool.eq_iff_iff]
    simp only [ipv4OctetMatch, specIPv4Octet, natOfDigits, List.foldl,
      List.all_cons, List.all_nil, List.length_cons, List.length_nil,
      Bool.and_eq_true, Bool.and_true, decide_eq_true_eq, char_isDigit_iff,
      ne_eq, reduceCtorEq, not_false_eq_true, true_and]
    omega
  · rw [Bool.eq_iff_iff]
    simp only [ipv4OctetMatch, specIPv4Octet, natOfDigits, List.foldl,
      List.all_cons, List.all_nil, List.length_cons, List.length_nil,
      Bool.or_eq_true, Bool.and_eq_true, Bool.and_true, decide_eq_true_eq,
      char_isDigit_iff, char_eq_iff, char_le_iff, ne_eq, reduceCtorEq,
      not_false_eq_true, true_and,
      (show ('0' : Char).toNat = 48 from rfl),
      (show ('1' : Char).toNat = 49 from rfl),
      (show ('2' : Char).toNat = 50 from rfl),
      (show ('4' : Char).toNat = 52 from rfl),
      (show ('5' : Char).toNat = 53 from rfl)]
    omega
  · rw [Bool.eq_iff_iff]
    simp only [ipv4OctetMatch, specIPv4Octet, Bool.and_eq_true,
      decide_eq_true_eq, List.length_cons, Bool.false_eq_true, false_iff]
    intro h
    exact absurd h.1.1.2 (by omega)

lemma isValidIPv4_eq_spec (s : JStr) : isValidIPv4 s = specIPv4 s := by
  rw [isValidIPv4, specIPv4]
  rcases h : splitP (fun c => c = '.') s with _ | ⟨o1, _ | ⟨o2, _ | ⟨o3, _ | ⟨o4, _ | ⟨o5, t⟩⟩⟩⟩⟩ <;>
    simp [ipv4OctetMatch_eq_spec]

lemma isLabelChar_of_alnum {c : Char} (h : isAlnum c = true) :
    isLabelChar c = true := by
  simp [isLabelChar, h]

lemma labelMatch_eq_spec (l : JStr) : labelMatch l = specLabel l := by
  rcases l with _ | ⟨c, _ | ⟨r0, rt⟩⟩
  · rfl
  · rw [Bool.eq_iff_iff]
    by_cases ha : isAlnum c = true
    · simp [labelMatch, specLabel, ha, isLabelChar_of_alnum ha]
    · simp only [Bool.not_eq_true] at ha
      simp [labelMatch, specLabel, ha]
  · have hrne : (r0 :: rt) ≠ [] := by simp
    obtain ⟨m, d, hmd⟩ : ∃ m d, r0 :: rt = m ++ [d] :=
      ⟨(r0 :: rt).dropLast, (r0 :: rt).getLast hrne,
        (List.dropLast_append_getLast hrne).symm⟩
    have hl1 : (r0 :: rt).getLast? = some d := by
      rw [hmd]
      exact List.getLast?_concat _
    have hdl : (r0 :: rt).dropLast = m := by
      rw [hmd]
      exact List.dropLast_concat
    have hl2 : (c :: r0 :: rt).getLast? = some d := by
      rw [List.getLast?_cons_cons]
      exact hl1
    have hlen : rt.length = m.length := by
      have := congrArg List.length hmd
      simpa using this
    have hall : ∀ P : Char → Bool, (r0 :: rt).all P = (m.all P && P d) := by
      intro P
      rw [hmd]
      simp [List.all_append]
    rw [Bool.eq_iff_iff]
    simp only [labelMatch, specLabel, hl1, hdl, List.head?_cons, hl2,
      List.all_cons, hall, Bool.and_eq_true, Bool.and_true, decide_eq_true_eq,
      List.length_cons, hlen]
    constructor
    · rintro ⟨hc, ⟨hd, hm⟩, h61⟩
      exact ⟨⟨⟨by omega, by omega⟩, hc, hd⟩,
        isLabelChar_of_alnum hc, hm, isLabelChar_of_alnum hd⟩
    · rintro ⟨⟨⟨-, h63⟩, hc, hd⟩, -, hm, -⟩
      exact ⟨hc, ⟨hd, hm⟩, by omega⟩

lemma hostnameRegexMatch_eq_spec (s : JStr) :
    hostnameRegexMatch s = (splitP (fun c => c = '.') s).all specLabel := by
  rw [hostnameRegexMatch, show labelMatch = specLabel from funext labelMatch_eq_spec]

/-- With valid keys and bucket and every other field absent, configuration
validation succeeds exactly when the (already trimmed, nonempty) endpoint is
accepted by `isValidHostname`. -/
lemma validate_endpoint_config (s : JStr) (htrim : jsTrim s = s) (hs : s ≠ []) :
    validateAndNormalizeConfig
        { endPoint := some s, accessKey := some (js "k"),
          secretKey := some (js "s"), bucket := some (js "my-bucket") } =
      (if isValidHostname s then
        .ok { endPoint := s, port := DEFAULT_PORT_HTTP, useSSL := false,
              accessKey := js "k", secretKey := js "s",
              bucket := js "my-bucket", folder := [], privateFlag := false,
              expiry := DEFAULT_EXPIRY,
              connectTimeout := DEFAULT_CONNECT_TIMEOUT, requestTimeout := none,
              debug := false, rejectUnauthorized := true,
              maxRetries := DEFAULT_MAX_RETRIES,
              retryDelay := DEFAULT_RETRY_DELAY, keepAlive := false }
      else .error .configurationError) := by
  cases hv : isValidHostname s with
  | false =>
    rw [validateAndNormalizeConfig]
    simp +decide [parseBoolean, resolvePort, resolveExpiry, htrim, hs, hv]
  | true =>
    rw [validateAndNormalizeConfig]
    simp +decide [parseBoolean, resolvePort, resolveExpiry, htrim, hs, hv]

/-- C7 counterexample: the endpoint `1:::2` is accepted by the validator
although it is not `localhost`, not a valid IPv4 address, not a valid IPv6
address (its `::` marker is followed by a stray extra colon), and not a
valid DNS hostname. -/
theorem c7_counterexample :
    (validateAndNormalizeConfig
        { endPoint := some (js "1:::2"), accessKey := some (js "k"),
          secretKey := some (js "s"), bucket := some (js "my-bucket") }).map
        NormalizedConfig.endPoint = .ok (js "1:::2") ∧
      js "1:::2" ≠ js "localhost" ∧ specIPv4 (js "1:::2") = false ∧
      specIPv6 (js "1:::2") = false ∧ specDNSHostname (js "1:::2") = false := by
  exact ⟨by decide, by decide, by decide, by decide, by decide⟩

/-- C7 (amended): a string is accepted as endpoint exactly when it is
`localhost`, a syntactically valid IPv4 address, an IPv6 address in the
code's lenient sense (empty chunks around `::` are silently dropped, so
strings such as `1:::2` pass), or a syntactically valid DNS hostname; the
spec's strict IPv6 class must be widened to the code's lenient one. -/
theorem c7_amended_hostname_classes (s : JStr) :
    (isValidHostname s = true ↔
        (s = js "localhost" ∨ specIPv4 s = true ∨ isValidIPv6 s = true ∨
          specDNSHostname s = true)) ∧
      (jsTrim s = s →
        ((∃ cfg, validateAndNormalizeConfig
            { endPoint := some s, accessKey := some (js "k"),
              secretKey := some (js "s"), bucket := some (js "my-bucket") } =
            .ok cfg) ↔ isValidHostname s = true)) := by
  constructor
  · rw [isValidHostname]
    by_cases hloc : s = js "localhost"
    · simp [hloc]
    · rw [if_neg hloc]
      by_cases hip : (isValidIPv4 s || isValidIPv6 s) = true
      · rw [if_pos hip]
        rw [Bool.or_eq_true] at hip
        rcases hip with h4 | h6
        · have h4s : specIPv4 s = true := by
            rw [← isValidIPv4_eq_spec]
            exact h4
          simp [h4s]
        · simp [h6]
      · rw [if_neg hip]
        rw [Bool.or_eq_true] at hip
        push_neg at hip
        obtain ⟨h4, h6⟩ := hip
        replace h4 : isValidIPv4 s = false := by simpa using h4
        replace h6 : isValidIPv6 s = false := by simpa using h6
        have h4s : specIPv4 s = false := by
          rw [← isValidIPv4_eq_spec]
          exact h4
        by_cases hlen : 253 < s.length
        · rw [if_pos hlen]
          simp [hloc, h4s, h6, specDNSHostname,
            show ¬(s.length ≤ 253) from by omega]
        · rw [if_neg hlen]
          rw [hostnameRegexMatch_eq_spec]
          have hle : s.length ≤ 253 := by omega
          simp [hloc, h4s, h6, specDNSHostname, hle]
  · intro htrim
    by_cases hs : s = []
    · subst hs
      constructor
      · rintro ⟨cfg, hcfg⟩
        rw [show validateAndNormalizeConfig
            { endPoint := some [], accessKey := some (js "k"),
              secretKey := some (js "s"), bucket := some (js "my-bucket") } =
            .error .configurationError from by decide] at hcfg
        exact absurd hcfg (by simp)
      · intro hv
        exact absurd hv (by decide)
    · rw [validate_endpoint_config s htrim hs]
      constructor
      · rintro ⟨cfg, hcfg⟩
        by_contra hv
        rw [Bool.not_eq_true] at hv
        rw [hv] at hcfg
        simp at hcfg
      · intro hv
        rw [hv]
        exact ⟨_, rfl⟩

/-- Witness for C7 (amended) at the concrete hostname `minio.example.com`. -/
theorem c7_amended_hostname_classes_witness :
    isValidHostname (js "minio.example.com") = true ∧
      specDNSHostname (js "minio.example.com") = true ∧
      ∃ cfg, validateAndNormalizeConfig
          { endPoint := some (js "minio.example.com"),
            accessKey := some (js "k"), secretKey := some (js "s"),
            bucket := some (js "my-bucket") } = .ok cfg := by
  refine ⟨by decide, by decide, ?_⟩
  exact ((c7_amended_hostname_classes (js "minio.example.com")).2
    (by decide)).mpr (by decide)

lemma urlSafeChar_toNat {c : Char} (h : urlSafeChar c = true) :
    (48 ≤ c.toNat ∧ c.toNat ≤ 57) ∨ (97 ≤ c.toNat ∧ c.toNat ≤ 122) ∨
      (65 ≤ c.toNat ∧ c.toNat ≤ 90) ∨ c.toNat = 45 ∨ c.toNat = 95 ∨
      c.toNat = 46 ∨ c.toNat = 47 := by
  rw [urlSafeChar] at h
  simp only [Bool.or_eq_true, Bool.and_eq_true, decide_eq_true_eq, char_eq_iff,
    (show ('-' : Char).toNat = 45 from rfl),
    (show ('_' : Char).toNat = 95 from rfl),
    (show ('.' : Char).toNat = 46 from rfl),
    (show ('/' : Char).toNat = 47 from rfl)] at h
  tauto

lemma urlSafeChar_ne {c : Char} (h : urlSafeChar c = true) :
    c ≠ '%' ∧ c ≠ '?' ∧ c ≠ '#' ∧ c ≠ '\\' := by
  have h' := urlSafeChar_toNat h
  refine ⟨?_, ?_, ?_, ?_⟩ <;>
    · simp only [ne_eq, char_eq_iff,
        (show ('%' : Char).toNat = 37 from rfl),
        (show ('?' : Char).toNat = 63 from rfl),
        (show ('#' : Char).toNat = 35 from rfl),
        (show ('\\' : Char).toNat = 92 from rfl)]
      omega

lemma urlSafeChar_not_encode {c : Char} (h : urlSafeChar c = true) :
    inPathEncodeSet c = false := by
  have h' := urlSafeChar_toNat h
  rw [inPathEncodeSet, Bool.eq_false_iff]
  intro hc
  simp only [Bool.or_eq_true, decide_eq_true_eq, char_eq_iff,
    (show (c.val ≤ (0x1F : UInt32)) ↔ c.toNat ≤ 31 from Iff.rfl),
    (show ((0x7F : UInt32) ≤ c.val) ↔ 127 ≤ c.toNat from Iff.rfl),
    (show (c.val = (0x60 : UInt32)) ↔ c.toNat = 96 from
      ⟨fun hx => congrArg UInt32.toNat hx, fun hx => UInt32.ext hx⟩),
    (show (c.val = (123 : UInt32)) ↔ c.toNat = 123 from
      ⟨fun hx => congrArg UInt32.toNat hx, fun hx => UInt32.ext hx⟩),
    (show (c.val = (125 : UInt32)) ↔ c.toNat = 125 from
      ⟨fun hx => congrArg UInt32.toNat hx, fun hx => UInt32.ext hx⟩),
    (show (' ' : Char).toNat = 32 from rfl),
    (show ('"' : Char).toNat = 34 from rfl),
    (show ('<' : Char).toNat = 60 from rfl),
    (show ('>' : Char).toNat = 62 from rfl)] at hc
  omega

lemma decodeAux_cons_ne {c : Char} (hc : c ≠ '%') (fuel : Nat) (cs : JStr) :
    decodeAux (fuel + 1) (c :: cs) = (do
      let tail ← decodeAux fuel cs
      pure (c :: tail)) := by
  rw [decodeAux.eq_def]
  simp [hc]

lemma decodeAux_append (a : JStr) (ha : ∀ c ∈ a, c ≠ '%') :
    ∀ (fuel : Nat) (b : JStr), decodeAux (fuel + a.length) (a ++ b) =
      Except.map (fun t => a ++ t) (decodeAux fuel b) := by
  induction a with
  | nil =>
    intro fuel b
    rcases h : decodeAux fuel b <;> simp [h, Except.map]
  | cons c cs ih =>
    intro fuel b
    have hc : c ≠ '%' := ha c (by simp)
    have ih' := ih (fun x hx => ha x (by simp [hx])) fuel b
    rw [show fuel + (c :: cs).length = (fuel + cs.length) + 1 by
      simp [Nat.add_assoc]]
    rw [List.cons_append, decodeAux_cons_ne hc, ih']
    rcases h : decodeAux fuel b <;> simp [Except.map]

lemma decode_no_pct_append (a : JStr) (ha : ∀ c ∈ a, c ≠ '%') (b : JStr) :
    jsDecodeURIComponent (a ++ b) =
      Except.map (fun t => a ++ t) (jsDecodeURIComponent b) := by
  rw [jsDecodeURIComponent, jsDecodeURIComponent, List.length_append,
    Nat.add_comm a.length b.length]
  exact decodeAux_append a ha b.length b

lemma decode_no_pct (s : JStr) (h : ∀ c ∈ s, c ≠ '%') :
    jsDecodeURIComponent s = .ok s := by
  have := decode_no_pct_append s h []
  rw [List.append_nil] at this
  rw [this, show jsDecodeURIComponent ([] : JStr) = .ok [] from rfl]
  simp [Except.map]

lemma takeWhile_all {p : Char → Bool} :
    ∀ {l : JStr}, (∀ c ∈ l, p c = true) → l.takeWhile p = l := by
  intro l
  induction l with
  | nil => intro _; rfl
  | cons c cs ih =>
    intro h
    rw [List.takeWhile_cons, h c (by simp)]
    simp [ih (fun x hx => h x (by simp [hx]))]

lemma takeWhile_append_all {p : Char → Bool} {a : JStr}
    (ha : ∀ c ∈ a, p c = true) (b : JStr) :
    (a ++ b).takeWhile p = a ++ b.takeWhile p := by
  induction a with
  | nil => rfl
  | cons c cs ih =>
    rw [List.cons_append, List.takeWhile_cons, ha c (by simp)]
    simp [ih (fun x hx => ha x (by simp [hx]))]

lemma takeWhile_append_stop {p : Char → Bool} {a : JStr}
    (ha : ∀ c ∈ a, p c = true) {d : Char} (hd : p d = false) (b : JStr) :
    (a ++ d :: b).takeWhile p = a := by
  rw [takeWhile_append_all ha, List.takeWhile_cons, hd]
  simp

lemma splitP_append_sep (p : Char → Bool) {a : JStr}
    (ha : ∀ c ∈ a, p c = false) (hs : p '/' = true) (b : JStr) :
    splitP p (a ++ '/' :: b) = a :: splitP p b := by
  induction a with
  | nil =>
    obtain ⟨h0, t0, heq⟩ := splitP_eq_cons p b
    rw [List.nil_append, splitP_cons_of_pos hs heq, heq]
  | cons c cs ih =>
    have hc : p c = false := ha c (by simp)
    have ih' := ih (fun x hx => ha x (by simp [hx]))
    rw [List.cons_append, splitP_cons_of_neg hc ih']

lemma joinSep_cons_head (sep : JStr) (c : Char) (h0 : JStr) (t0 : List JStr) :
    joinSep sep ((c :: h0) :: t0) = c :: joinSep sep (h0 :: t0) := by
  cases t0 <;> simp [joinSep]

lemma joinSep_splitP_slash (s : JStr) (hnb : ∀ c ∈ s, c ≠ '\\') :
    joinSep ['/'] (splitP isSepChar s) = s := by
  induction s with
  | nil => rfl
  | cons c cs ih =>
    have ih' := ih (fun x hx => hnb x (by simp [hx]))
    obtain ⟨h0, t0, heq⟩ := splitP_eq_cons isSepChar cs
    by_cases hc : isSepChar c = true
    · have hcs : c = '/' := by
        simp only [isSepChar, Bool.or_eq_true, decide_eq_true_eq] at hc
        rcases hc with h | h
        · exact h
        · exact absurd h (hnb c (by simp))
      subst hcs
      rw [splitP_cons_of_pos hc heq, joinSep, ← heq, ih']
      simp
    · rw [splitP_cons_of_neg (by simpa using hc) heq, joinSep_cons_head,
        ← heq, ih']

lemma dotProcess_no_dots :
    ∀ (l : List JStr) (acc : List JStr),
      (∀ x ∈ l, x ≠ ['.'] ∧ x ≠ ['.', '.']) → dotProcess acc l = acc ++ l := by
  intro l
  induction l with
  | nil => intro acc _; simp [dotProcess]
  | cons s t ih =>
    intro acc h
    have hs := h s (by simp)
    cases t with
    | nil =>
      rw [dotProcess, if_neg hs.2, if_neg hs.1]
    | cons y t' =>
      rw [dotProcess, if_neg hs.2, if_neg hs.1,
        ih (acc ++ [s]) (fun x hx => h x (by simp [hx]))]
      all_goals simp

lemma encodeSeg_id (s : JStr) (h : ∀ c ∈ s, inPathEncodeSet c = false) :
    encodeSeg s = s := by
  induction s with
  | nil => rfl
  | cons c cs ih =>
    rw [encodeSeg, List.map_cons, List.flatten_cons]
    rw [show encodePathChar c = [c] from by
      rw [encodePathChar, h c (by simp)]
      simp]
    rw [show ((cs.map encodePathChar).flatten : JStr) = encodeSeg cs from rfl,
      ih (fun x hx => h x (by simp [hx]))]
    rfl

lemma map_eq_self_of_id {f : JStr → JStr} :
    ∀ {l : List JStr}, (∀ x ∈ l, f x = x) → l.map f = l := by
  intro l
  induction l with
  | nil => intro _; rfl
  | cons x t ih =>
    intro h
    rw [List.map_cons, h x (by simp), ih (fun y hy => h y (by simp [hy]))]

lemma splitP_mem_subset (p : Char → Bool) :
    ∀ (s x : JStr), x ∈ splitP p s → ∀ c ∈ x, c ∈ s := by
  intro s
  induction s with
  | nil =>
    intro x hx c hc
    rcases List.mem_singleton.1 hx with rfl
    exact absurd hc (List.not_mem_nil _)
  | cons a t ih =>
    intro x hx c hc
    obtain ⟨h', t', heq⟩ := splitP_eq_cons p t
    by_cases ha : p a = true
    · rw [splitP_cons_of_pos ha heq] at hx
      rcases List.mem_cons.1 hx with rfl | hx'
      · exact absurd hc (List.not_mem_nil _)
      · exact List.mem_cons_of_mem _ (ih x (by rw [heq]; exact hx') c hc)
    · rw [splitP_cons_of_neg (by simpa using ha) heq] at hx
      rcases List.mem_cons.1 hx with rfl | hx'
      · rcases List.mem_cons.1 hc with rfl | hc'
        · exact List.mem_cons_self _ _
        · exact List.mem_cons_of_mem _
            (ih h' (by rw [heq]; exact List.mem_cons_self _ _) c hc')
      · exact List.mem_cons_of_mem _
          (ih x (by rw [heq]; exact List.mem_cons_of_mem _ hx') c hc)

lemma jsParseUrl_clean (k : JStr) (hsafe : ∀ c ∈ k, urlSafeChar c = true)
    (hseg : ∀ x ∈ splitP isSepChar k, x ≠ ['.'] ∧ x ≠ ['.', '.']) :
    jsParseUrl (js "http://localhost:9000/test-bucket/" ++ k) =
      some ⟨js "localhost", '/' :: (js "test-bucket" ++ '/' :: k)⟩ := by
  have hnb : ∀ c ∈ k, c ≠ '\\' := fun c hc => (urlSafeChar_ne (hsafe c hc)).2.2.2
  have e1 : jsStartsWith (js "http://")
      (js "http://localhost:9000/test-bucket/" ++ k) = true := rfl
  have e2 : (js "http://localhost:9000/test-bucket/" ++ k).drop 7 =
      js "localhost:9000/test-bucket/" ++ k := rfl
  have e3 : (js "localhost:9000/test-bucket/" ++ k).takeWhile
      (fun c => !(c = '/' || c = '\\' || c = '?' || c = '#')) =
      js "localhost:9000" := rfl
  have e6 : (js "localhost:9000/test-bucket/" ++ k).drop
      (js "localhost:9000").length = '/' :: (js "test-bucket/" ++ k) := rfl
  have e7 : ('/' :: (js "test-bucket/" ++ k)).takeWhile
      (fun c => !(c = '?' || c = '#')) = '/' :: (js "test-bucket/" ++ k) := by
    apply takeWhile_all
    intro c hc
    rcases List.mem_cons.1 hc with rfl | hc
    · rfl
    · rcases List.mem_append.1 hc with h | h
      · exact (by decide :
          ∀ c ∈ js "test-bucket/", (!(c = '?' || c = '#')) = true) c h
      · obtain ⟨-, h2, h3, -⟩ := urlSafeChar_ne (hsafe c h)
        simp [h2, h3]
  have e8 : splitP isSepChar (js "test-bucket/" ++ k) =
      js "test-bucket" :: splitP isSepChar k := by
    rw [show js "test-bucket/" ++ k = js "test-bucket" ++ '/' :: k from rfl]
    exact splitP_append_sep isSepChar (by decide) (by decide) k
  have e9 : dotProcess [] (js "test-bucket" :: splitP isSepChar k) =
      js "test-bucket" :: splitP isSepChar k := by
    have hl : ∀ x ∈ js "test-bucket" :: splitP isSepChar k,
        x ≠ ['.'] ∧ x ≠ ['.', '.'] := by
      intro x hx
      rcases List.mem_cons.1 hx with rfl | hx
      · exact ⟨by decide, by decide⟩
      · exact hseg x hx
    rw [dotProcess_no_dots _ _ hl]
    rfl
  have e10 : (js "test-bucket" :: splitP isSepChar k).map encodeSeg =
      js "test-bucket" :: splitP isSepChar k := by
    apply map_eq_self_of_id
    intro x hx
    rcases List.mem_cons.1 hx with rfl | hx
    · decide
    · exact encodeSeg_id x (fun c hc =>
        urlSafeChar_not_encode (hsafe c (splitP_mem_subset isSepChar k x hx c hc)))
  have e11 : joinSep ['/'] (js "test-bucket" :: splitP isSepChar k) =
      js "test-bucket" ++ '/' :: k := by
    obtain ⟨h0, t0, heq⟩ := splitP_eq_cons isSepChar k
    rw [heq, joinSep, ← heq, joinSep_splitP_slash k hnb]
    simp
  rw [jsParseUrl]
  simp only []
  rw [if_pos e1, e2, e3]
  rw [if_neg (show ¬(js "localhost:9000" = ([] : JStr)) from by decide)]
  rw [show afterLastAt (js "localhost:9000") = js "localhost:9000" from rfl]
  rw [show (js "localhost:9000").takeWhile (fun c => c ≠ ':') = js "localhost"
    from rfl]
  rw [if_neg (show ¬(js "localhost" = ([] : JStr)) from by decide)]
  rw [e6, e7]
  simp only []
  rw [e8, e9, e10, e11]

lemma jsStartsWith_append (p x : JStr) : jsStartsWith p (p ++ x) = true := by
  rw [jsStartsWith]
  exact List.isPrefixOf_iff_prefix.mpr (List.prefix_append p x)

lemma extractTryBlock_clean (k : JStr) (hsafe : ∀ c ∈ k, urlSafeChar c = true)
    (hseg : ∀ x ∈ splitP isSepChar k, x ≠ ['.'] ∧ x ≠ ['.', '.']) :
    extractTryBlock (js "http://localhost:9000/test-bucket/" ++ k)
      (js "http://localhost:9000/") (js "test-bucket") = .ok k := by
  have hpath : ('/' :: (js "test-bucket" ++ '/' :: k)) =
      (('/' :: js "test-bucket") ++ ['/']) ++ k := by simp
  rw [extractTryBlock, jsParseUrl_clean k hsafe hseg]
  simp only []
  rw [hpath,
    if_pos (jsStartsWith_append (('/' :: js "test-bucket") ++ ['/']) k)]
  rw [show (js "test-bucket").length + 2 =
      (('/' :: js "test-bucket") ++ ['/']).length from rfl]
  rw [List.drop_left]

lemma extract_clean (k : JStr) (hsafe : ∀ c ∈ k, urlSafeChar c = true)
    (hseg : ∀ x ∈ splitP isSepChar k, x ≠ ['.'] ∧ x ≠ ['.', '.']) :
    extractFilePathFromUrl (js "http://localhost:9000/test-bucket/" ++ k)
      (js "http://localhost:9000/") (js "test-bucket") = .ok k := by
  have hne : js "http://localhost:9000/test-bucket/" ++ k ≠ [] := by
    intro h
    exact absurd (List.append_eq_nil.mp h).1 (by decide)
  have hnp : ∀ c ∈ js "http://localhost:9000/test-bucket/" ++ k, c ≠ '%' := by
    intro c hc
    rcases List.mem_append.1 hc with h | h
    · exact (by decide :
        ∀ c ∈ js "http://localhost:9000/test-bucket/", c ≠ '%') c h
    · exact (urlSafeChar_ne (hsafe c h)).1
  have hq : ∀ c ∈ js "http://localhost:9000/test-bucket/" ++ k,
      (decide (c ≠ '?')) = true := by
    intro c hc
    rcases List.mem_append.1 hc with h | h
    · exact (by decide : ∀ c ∈ js "http://localhost:9000/test-bucket/",
        (decide (c ≠ '?')) = true) c h
    · simp [(urlSafeChar_ne (hsafe c h)).2.1]
  have hh : ∀ c ∈ js "http://localhost:9000/test-bucket/" ++ k,
      (decide (c ≠ '#')) = true := by
    intro c hc
    rcases List.mem_append.1 hc with h | h
    · exact (by decide : ∀ c ∈ js "http://localhost:9000/test-bucket/",
        (decide (c ≠ '#')) = true) c h
    · simp [(urlSafeChar_ne (hsafe c h)).2.2.1]
  rw [extractFilePathFromUrl, if_neg hne, decode_no_pct _ hnp]
  simp only []
  rw [stripAfterChar, stripAfterChar, takeWhile_all hq, takeWhile_all hh,
    extractTryBlock_clean k hsafe hseg]

/-- C2 counterexample: the hash `a?b` survives sanitization, so the built key
is `a?b.jpg`, but extracting it back from its public URL truncates at the
`?`, recovering only `a`. -/
theorem c2_counterexample :
    buildUploadPath ⟨none, some (js "a?b"), some (js ".jpg"), none⟩ [] =
        .ok (js "a?b.jpg") ∧
      extractFilePathFromUrl
          (createFileUrl (js "a?b.jpg") (js "http://localhost:9000/")
            (js "test-bucket"))
          (js "http://localhost:9000/") (js "test-bucket") = .ok (js "a") ∧
      (js "a" : JStr) ≠ js "a?b.jpg" := by decide

/-- C2 (amended): the URL round-trip recovers the built key exactly when the
key contains only URL-safe characters (alphanumerics, `-`, `_`, `.`, `/`) —
in particular no `?`, `#`, `%` or characters the URL parser percent-encodes —
and no slash-separated segment of the key is `.` or `..`; under those
conditions `extractFilePathFromUrl (createFileUrl k ...) ... = .ok k`. -/
theorem c2_amended_roundtrip (file : StrapiFile) (folder k : JStr)
    (hbuild : buildUploadPath file folder = .ok k)
    (hsafe : ∀ c ∈ k, urlSafeChar c = true)
    (hseg : ∀ x ∈ splitP isSepChar k, x ≠ ['.'] ∧ x ≠ ['.', '.']) :
    extractFilePathFromUrl
        (createFileUrl k (js "http://localhost:9000/") (js "test-bucket"))
        (js "http://localhost:9000/") (js "test-bucket") = .ok k := by
  rw [show createFileUrl k (js "http://localhost:9000/") (js "test-bucket") =
    js "http://localhost:9000/test-bucket/" ++ k from rfl]
  exact extract_clean k hsafe hseg

/-- Witness for C2 (amended) at hash `abc123`, extension `.jpg`, folder
`uploads`. -/
theorem c2_amended_roundtrip_witness :
    buildUploadPath ⟨none, some (js "abc123"), some (js ".jpg"), none⟩
        (js "uploads") = .ok (js "uploads/abc123.jpg") ∧
      extractFilePathFromUrl
          (createFileUrl (js "uploads/abc123.jpg")
            (js "http://localhost:9000/") (js "test-bucket"))
          (js "http://localhost:9000/") (js "test-bucket") =
        .ok (js "uploads/abc123.jpg") := by
  refine ⟨by decide, ?_⟩
  exact c2_amended_roundtrip
    ⟨none, some (js "abc123"), some (js ".jpg"), none⟩ (js "uploads")
    (js "uploads/abc123.jpg") (by decide) (by decide) (by decide)

lemma decodeAux_no_pct : ∀ (fuel : Nat) (s : JStr), s.length ≤ fuel →
    (∀ c ∈ s, c ≠ '%') → decodeAux fuel s = .ok s := by
  intro fuel
  induction fuel with
  | zero =>
    intro s hl _
    cases s with
    | nil => rfl
    | cons c cs => simp at hl
  | succ f ih =>
    intro s hl h
    cases s with
    | nil => rfl
    | cons c cs =>
      rw [decodeAux_cons_ne (h c (by simp)) f cs,
        ih cs (by simp at hl; omega) (fun x hx => h x (by simp [hx]))]
      rfl

lemma decodeAux_cons_pct (fuel : Nat) (a b : Char) (rest : JStr) :
    decodeAux (fuel + 1) ('%' :: a :: b :: rest) =
      (match pctDecodeOne a b rest with
       | .error e => .error e
       | .ok (ch, rem) => do
         let tail ← decodeAux fuel rem
         pure (ch :: tail)) := by
  rw [decodeAux.eq_def]
  simp

lemma decode_pct3F (q : JStr) (hq : ∀ c ∈ q, c ≠ '%') :
    jsDecodeURIComponent ('%' :: '3' :: 'F' :: q) = .ok ('?' :: q) := by
  rw [jsDecodeURIComponent]
  rw [show ('%' :: '3' :: 'F' :: q).length = q.length + 2 + 1 from by simp]
  rw [decodeAux_cons_pct]
  rw [show pctDecodeOne '3' 'F' q = .ok ('?', q) from rfl]
  simp only []
  rw [decodeAux_no_pct (q.length + 2) q (by omega) hq]
  rfl

lemma decode_pct23 (q : JStr) (hq : ∀ c ∈ q, c ≠ '%') :
    jsDecodeURIComponent ('%' :: '2' :: '3' :: q) = .ok ('#' :: q) := by
  rw [jsDecodeURIComponent]
  rw [show ('%' :: '2' :: '3' :: q).length = q.length + 2 + 1 from by simp]
  rw [decodeAux_cons_pct]
  rw [show pctDecodeOne '2' '3' q = .ok ('#', q) from rfl]
  simp only []
  rw [decodeAux_no_pct (q.length + 2) q (by omega) hq]
  rfl

lemma decode_trailing_pct (u : JStr) (hu : ∀ c ∈ u, c ≠ '%') :
    jsDecodeURIComponent (u ++ ['%']) = .error .uriError := by
  rw [decode_no_pct_append u hu ['%']]
  rw [show jsDecodeURIComponent ['%'] = .error .uriError from rfl]
  rfl

lemma extract_of_decoded {url d0 k1 : JStr} (hne : url ≠ [])
    (hdec : jsDecodeURIComponent url = .ok d0)
    (hstrip : stripAfterChar '#' (stripAfterChar '?' d0) =
      js "http://localhost:9000/test-bucket/" ++ k1)
    (hsafe : ∀ c ∈ k1, urlSafeChar c = true)
    (hseg : ∀ x ∈ splitP isSepChar k1, x ≠ ['.'] ∧ x ≠ ['.', '.']) :
    extractFilePathFromUrl url (js "http://localhost:9000/")
      (js "test-bucket") = .ok k1 := by
  rw [extractFilePathFromUrl, if_neg hne, hdec]
  simp only []
  rw [hstrip, extractTryBlock_clean k1 hsafe hseg]

/-- C10: the whole URL is percent-decoded before the query string and
fragment are stripped, so a percent-encoded or literal `?` or `#` inside the
key portion truncates the recovered key at that character, and a malformed
percent sequence (a trailing `%`) raises `URIError` instead of the
extraction error. -/
theorem c10_decode_before_strip (k1 q : JStr)
    (hsafe : ∀ c ∈ k1, urlSafeChar c = true)
    (hseg : ∀ x ∈ splitP isSepChar k1, x ≠ ['.'] ∧ x ≠ ['.', '.'])
    (hq : ∀ c ∈ q, c ≠ '%') :
    (extractFilePathFromUrl
        (js "http://localhost:9000/test-bucket/" ++ (k1 ++ '?' :: q))
        (js "http://localhost:9000/") (js "test-bucket") = .ok k1) ∧
      (extractFilePathFromUrl
        (js "http://localhost:9000/test-bucket/" ++ (k1 ++ '#' :: q))
        (js "http://localhost:9000/") (js "test-bucket") = .ok k1) ∧
      (extractFilePathFromUrl
        (js "http://localhost:9000/test-bucket/" ++ (k1 ++ '%' :: '3' :: 'F' :: q))
        (js "http://localhost:9000/") (js "test-bucket") = .ok k1) ∧
      (extractFilePathFromUrl
        (js "http://localhost:9000/test-bucket/" ++ (k1 ++ '%' :: '2' :: '3' :: q))
        (js "http://localhost:9000/") (js "test-bucket") = .ok k1) ∧
      (∀ u : JStr, (∀ c ∈ u, c ≠ '%') →
        extractFilePathFromUrl (u ++ ['%'])
          (js "http://localhost:9000/") (js "test-bucket") = .error .uriError) := by
  have hPk : ∀ c ∈ js "http://localhost:9000/test-bucket/" ++ k1,
      c ≠ '%' ∧ (decide (c ≠ '?')) = true ∧ (decide (c ≠ '#')) = true := by
    intro c hc
    rcases List.mem_append.1 hc with h | h
    · exact (by decide : ∀ c ∈ js "http://localhost:9000/test-bucket/",
        c ≠ '%' ∧ (decide (c ≠ '?')) = true ∧ (decide (c ≠ '#')) = true) c h
    · obtain ⟨h1, h2, h3, -⟩ := urlSafeChar_ne (hsafe c h)
      exact ⟨h1, by simp [h2], by simp [h3]⟩
  have hstripQ : stripAfterChar '#' (stripAfterChar '?'
      ((js "http://localhost:9000/test-bucket/" ++ k1) ++ '?' :: q)) =
      js "http://localhost:9000/test-bucket/" ++ k1 := by
    rw [stripAfterChar, stripAfterChar,
      takeWhile_append_stop (fun c hc => (hPk c hc).2.1)
        (show (decide ('?' ≠ '?')) = false from by decide) q,
      takeWhile_all (fun c hc => (hPk c hc).2.2)]
  have hstripH : stripAfterChar '#' (stripAfterChar '?'
      ((js "http://localhost:9000/test-bucket/" ++ k1) ++ '#' :: q)) =
      js "http://localhost:9000/test-bucket/" ++ k1 := by
    rw [stripAfterChar, stripAfterChar,
      takeWhile_append_all (fun c hc => (hPk c hc).2.1), List.takeWhile_cons]
    rw [show (decide ('#' ≠ '?')) = true from by decide]
    simp only [if_true]
    rw [takeWhile_append_stop (fun c hc => (hPk c hc).2.2)
      (show (decide ('#' ≠ '#')) = false from by decide)]
  have hne1 : ∀ (x : JStr),
      js "http://localhost:9000/test-bucket/" ++ x ≠ [] := by
    intro x h
    exact absurd (List.append_eq_nil.mp h).1 (by decide)
  refine ⟨?_, ?_, ?_, ?_, ?_⟩
  · rw [show js "http://localhost:9000/test-bucket/" ++ (k1 ++ '?' :: q) =
      (js "http://localhost:9000/test-bucket/" ++ k1) ++ '?' :: q from by
        simp]
    refine extract_of_decoded ?_ ?_ hstripQ hsafe hseg
    · intro h
      exact absurd (List.append_eq_nil.mp h).2 (by simp)
    · refine decode_no_pct _ ?_
      intro c hc
      rcases List.mem_append.1 hc with h | h
      · exact (hPk c h).1
      · rcases List.mem_cons.1 h with rfl | h
        · decide
        · exact hq c h
  · rw [show js "http://localhost:9000/test-bucket/" ++ (k1 ++ '#' :: q) =
      (js "http://localhost:9000/test-bucket/" ++ k1) ++ '#' :: q from by
        simp]
    refine extract_of_decoded ?_ ?_ hstripH hsafe hseg
    · intro h
      exact absurd (List.append_eq_nil.mp h).2 (by simp)
    · refine decode_no_pct _ ?_
      intro c hc
      rcases List.mem_append.1 hc with h | h
      · exact (hPk c h).1
      · rcases List.mem_cons.1 h with rfl | h
        · decide
        · exact hq c h
  · rw [show js "http://localhost:9000/test-bucket/" ++
        (k1 ++ '%' :: '3' :: 'F' :: q) =
      (js "http://localhost:9000/test-bucket/" ++ k1) ++ '%' :: '3' :: 'F' :: q
      from by simp]
    refine extract_of_decoded ?_ ?_ hstripQ hsafe hseg
    · intro h
      exact absurd (List.append_eq_nil.mp h).2 (by simp)
    · rw [decode_no_pct_append _ (fun c hc => (hPk c hc).1),
        decode_pct3F q hq]
      rfl
  · rw [show js "http://localhost:9000/test-bucket/" ++
        (k1 ++ '%' :: '2' :: '3' :: q) =
      (js "http://localhost:9000/test-bucket/" ++ k1) ++ '%' :: '2' :: '3' :: q
      from by simp]
    refine extract_of_decoded ?_ ?_ hstripH hsafe hseg
    · intro h
      exact absurd (List.append_eq_nil.mp h).2 (by simp)
    · rw [decode_no_pct_append _ (fun c hc => (hPk c hc).1),
        decode_pct23 q hq]
      rfl
  · intro u hu
    have hneu : u ++ ['%'] ≠ [] := by
      intro h
      exact absurd (List.append_eq_nil.mp h).2 (by simp)
    rw [extractFilePathFromUrl, if_neg hneu, decode_trailing_pct u hu]

/-- Witness for C10 at key prefix `memory/file.jpg` and suffix
`X-Amz-Algorithm=x`: literal and percent-encoded query markers truncate, and
a URL ending in a bare `%` raises `URIError`. -/
theorem c10_decode_before_strip_witness :
    (extractFilePathFromUrl
        (js "http://localhost:9000/test-bucket/" ++
          (js "memory/file.jpg" ++ '?' :: js "X-Amz-Algorithm=x"))
        (js "http://localhost:9000/") (js "test-bucket") =
      .ok (js "memory/file.jpg")) ∧
      (extractFilePathFromUrl
        (js "http://localhost:9000/test-bucket/" ++
          (js "memory/file.jpg" ++ '%' :: '3' :: 'F' :: js "X-Amz-Algorithm=x"))
        (js "http://localhost:9000/") (js "test-bucket") =
      .ok (js "memory/file.jpg")) ∧
      (extractFilePathFromUrl (js "http://localhost:9000/a" ++ ['%'])
        (js "http://localhost:9000/") (js "test-bucket") =
      .error .uriError) := by
  have h := c10_decode_before_strip (js "memory/file.jpg")
    (js "X-Amz-Algorithm=x") (by decide) (by decide) (by decide)
  exact ⟨h.1, h.2.2.1, h.2.2.2.2 (js "http://localhost:9000/a") (by decide)⟩
